import Mathlib

/-!
# License protocol of the accessibility widget: shallow embedding

This file embeds `src/license.ts` (the browser verifier) and
`scripts/generate-license.ts` (the CLI issuer) of the accessibility-widget
repository into Lean and proves the spec's claims about them.

Modelling conventions:
* JavaScript byte buffers (`Uint8Array`, `Buffer`) are `List Nat` with each
  element below 256 (stated as a hypothesis where it matters).
* JavaScript strings are Lean `String`s (Unicode scalar values; lone UTF-16
  surrogates, which Lean cannot represent, are approximated by U+FFFD).
* The asynchronous Web-Crypto ECDSA primitive is an oracle parameter
  `verify : List Nat → List Nat → Bool` (signature bytes, message bytes);
  the issuer's signing primitive is an oracle `sign : List Nat → List Nat`.
  Availability of the crypto API is a `Bool` parameter.
* Wall-clock time is an explicit parameter in milliseconds since the Unix
  epoch; the issuer's clock is modelled in UTC as a civil date.
* A thrown-and-caught JavaScript exception is `Option.none` (or directly the
  boolean `false` the surrounding `try` collapses it to).
-/

namespace AkbyLicense

/-! ## ASCII case folding

`String.prototype.toLowerCase` as exercised by the license code (domains and
hostnames); modelled on the ASCII range, identity elsewhere. -/

/-- Lower-case a single character in the ASCII range. -/
def lowerChar (c : Char) : Char :=
  if 65 ≤ c.toNat ∧ c.toNat ≤ 90 then Char.ofNat (c.toNat + 32) else c

/-- Model of `s.toLowerCase()` (ASCII range). -/
def strLower (s : String) : String := String.mk (s.data.map lowerChar)

/-! ## Base64 and base64url

`base64urlDecode` (license.ts lines 27–40) converts base64url to standard
base64, appends `=` until the length is a multiple of 4, and calls `atob`.
`atob` is the WHATWG forgiving-base64 decoder: strip ASCII whitespace,
remove up to two trailing `=` when the length is a multiple of 4, fail on
a remaining length of 1 mod 4 or any character outside the alphabet, and
decode, discarding the 2 or 4 leftover bits of a final partial group.

`base64urlEncode` (generate-license.ts lines 72–78) is Node's standard
base64 encoding followed by `+`→`-`, `/`→`_` and stripping trailing `=`. -/

/-- The standard base64 alphabet, as a list of characters. -/
def b64Alphabet : List Char :=
  "ABCDEFGHIJKLMNOPQRSTUVWXYZabcdefghijklmnopqrstuvwxyz0123456789+/".data

/-- Character for a 6-bit value. -/
def b64CharOfVal (n : Nat) : Char := b64Alphabet.getD n 'A'

/-- Find the index of a character in an alphabet. -/
def alphaIndex : List Char → Nat → Char → Option Nat
  | [], _, _ => none
  | a :: rest, i, c => if a = c then some i else alphaIndex rest (i + 1) c

/-- 6-bit value of a character, `none` when outside the alphabet. -/
def b64ValOfChar (c : Char) : Option Nat := alphaIndex b64Alphabet 0 c

/-- ASCII whitespace stripped by forgiving-base64 (TAB, LF, FF, CR, SP). -/
def isB64Ws (c : Char) : Bool :=
  c = ' ' ∨ c = '\t' ∨ c = '\n' ∨ c = '\x0c' ∨ c = '\r'

/-- Remove one or two trailing `=` characters (forgiving-base64 step 2). -/
def stripPad (l : List Char) : List Char :=
  match l.reverse with
  | '=' :: '=' :: rest => rest.reverse
  | '=' :: rest => rest.reverse
  | _ => l

/-- Decode groups of base64 characters to bytes, discarding leftover bits of
a trailing 2- or 3-character group. A trailing single character fails. -/
def b64DecodeGroups : List Char → Option (List Nat)
  | [] => some []
  | [_] => none
  | [c1, c2] =>
      match b64ValOfChar c1, b64ValOfChar c2 with
      | some v1, some v2 => some [v1 * 4 + v2 / 16]
      | _, _ => none
  | [c1, c2, c3] =>
      match b64ValOfChar c1, b64ValOfChar c2, b64ValOfChar c3 with
      | some v1, some v2, some v3 => some [v1 * 4 + v2 / 16, (v2 % 16) * 16 + v3 / 4]
      | _, _, _ => none
  | c1 :: c2 :: c3 :: c4 :: rest =>
      match b64ValOfChar c1, b64ValOfChar c2, b64ValOfChar c3, b64ValOfChar c4,
          b64DecodeGroups rest with
      | some v1, some v2, some v3, some v4, some tail =>
          some ((v1 * 4 + v2 / 16) :: ((v2 % 16) * 16 + v3 / 4) :: ((v3 % 4) * 64 + v4) :: tail)
      | _, _, _, _, _ => none

/-- Model of the browser's `atob` (WHATWG forgiving-base64 decode);
`none` models the thrown `InvalidCharacterError`. -/
def atobModel (s : String) : Option (List Nat) :=
  let data := s.data.filter (fun c => ¬ isB64Ws c)
  let data := if data.length % 4 = 0 then stripPad data else data
  if data.length % 4 = 1 then none else b64DecodeGroups data

/-- Swap back from the url alphabet: `-`→`+`, `_`→`/` (the two `replace`
calls of license.ts line 29). -/
def urlUnswap (c : Char) : Char :=
  if c = '-' then '+' else if c = '_' then '/' else c

/-- Model of `base64urlDecode` (license.ts lines 27–40): map the url
alphabet back to the standard one, pad with `=` to a multiple of 4, `atob`. -/
def base64urlDecode (str : String) : Option (List Nat) :=
  let b64 := str.data.map urlUnswap
  let padded := b64 ++ List.replicate ((4 - b64.length % 4) % 4) '='
  atobModel (String.mk padded)

/-- Standard base64 encoding with padding (Node's `toString('base64')`). -/
def b64EncodeChunks : List Nat → List Char
  | [] => []
  | [a] => [b64CharOfVal (a / 4), b64CharOfVal ((a % 4) * 16), '=', '=']
  | [a, b] =>
      [b64CharOfVal (a / 4), b64CharOfVal ((a % 4) * 16 + b / 16),
       b64CharOfVal ((b % 16) * 4), '=']
  | a :: b :: c :: rest =>
      [b64CharOfVal (a / 4), b64CharOfVal ((a % 4) * 16 + b / 16),
       b64CharOfVal ((b % 16) * 4 + c / 64), b64CharOfVal (c % 64)]
        ++ b64EncodeChunks rest

/-- The body of the padded base64 encoding, without the trailing `=`s. -/
def b64EncBody : List Nat → List Char
  | [] => []
  | [a] => [b64CharOfVal (a / 4), b64CharOfVal ((a % 4) * 16)]
  | [a, b] =>
      [b64CharOfVal (a / 4), b64CharOfVal ((a % 4) * 16 + b / 16),
       b64CharOfVal ((b % 16) * 4)]
  | a :: b :: c :: rest =>
      [b64CharOfVal (a / 4), b64CharOfVal ((a % 4) * 16 + b / 16),
       b64CharOfVal ((b % 16) * 4 + c / 64), b64CharOfVal (c % 64)]
        ++ b64EncBody rest

/-- Number of `=` padding characters of the standard encoding of `n` bytes. -/
def b64PadCount (n : Nat) : Nat :=
  if n % 3 = 0 then 0 else if n % 3 = 1 then 2 else 1

/-- Swap to the url alphabet: `+`→`-`, `/`→`_` (`=` untouched). -/
def urlSwap (c : Char) : Char :=
  if c = '+' then '-' else if c = '/' then '_' else c

/-- Drop every trailing `=` (the issuer's `replace(/=+$/, '')`). -/
def stripTrailingEq (l : List Char) : List Char :=
  (l.reverse.dropWhile (fun c => c = '=')).reverse

/-- Model of the issuer's `base64urlEncode` (generate-license.ts lines
72–78): standard base64, swap to the url alphabet, strip trailing `=`. -/
def base64urlEncode (bytes : List Nat) : String :=
  String.mk (stripTrailingEq ((b64EncodeChunks bytes).map urlSwap))

/-! ## UTF-8

`TextEncoder().encode` and `Buffer.from(·, 'utf-8')` are UTF-8 encoding of
the string's scalar values; `TextDecoder().decode` is the WHATWG UTF-8
decoder, which replaces malformed subsequences with U+FFFD rather than
throwing. -/

/-- UTF-8 bytes of one scalar value. -/
def utf8EncodeChar (c : Char) : List Nat :=
  let v := c.toNat
  if v < 128 then [v]
  else if v < 2048 then [192 + v / 64, 128 + v % 64]
  else if v < 65536 then [224 + v / 4096, 128 + (v / 64) % 64, 128 + v % 64]
  else [240 + v / 262144, 128 + (v / 4096) % 64, 128 + (v / 64) % 64, 128 + v % 64]

/-- UTF-8 bytes of a string. -/
def utf8Encode (s : String) : List Nat := s.data.flatMap utf8EncodeChar

/-- The replacement character U+FFFD. -/
def replChar : Char := Char.ofNat 0xFFFD

/-- WHATWG UTF-8 decode with replacement. Malformed prefixes emit U+FFFD
and restart at the next undecoded byte. -/
def utf8DecodeList (bytes : List Nat) : List Char :=
  match bytes with
  | [] => []
  | b :: rest =>
    if b < 128 then Char.ofNat b :: utf8DecodeList rest
    else if b < 194 then replChar :: utf8DecodeList rest
    else if b < 224 then
      match rest with
      | [] => [replChar]
      | b2 :: rest2 =>
        if 128 ≤ b2 ∧ b2 < 192 then
          Char.ofNat ((b - 192) * 64 + (b2 - 128)) :: utf8DecodeList rest2
        else replChar :: utf8DecodeList (b2 :: rest2)
    else if b < 240 then
      match rest with
      | [] => [replChar]
      | b2 :: rest2 =>
        let lo2 := if b = 224 then 160 else 128
        let hi2 := if b = 237 then 160 else 192
        if lo2 ≤ b2 ∧ b2 < hi2 then
          match rest2 with
          | [] => [replChar]
          | b3 :: rest3 =>
            if 128 ≤ b3 ∧ b3 < 192 then
              Char.ofNat ((b - 224) * 4096 + (b2 - 128) * 64 + (b3 - 128))
                :: utf8DecodeList rest3
            else replChar :: utf8DecodeList (b3 :: rest3)
        else replChar :: utf8DecodeList (b2 :: rest2)
    else if b < 245 then
      match rest with
      | [] => [replChar]
      | b2 :: rest2 =>
        let lo2 := if b = 240 then 144 else 128
        let hi2 := if b = 244 then 144 else 192
        if lo2 ≤ b2 ∧ b2 < hi2 then
          match rest2 with
          | [] => [replChar]
          | b3 :: rest3 =>
            if 128 ≤ b3 ∧ b3 < 192 then
              match rest3 with
              | [] => [replChar]
              | b4 :: rest4 =>
                if 128 ≤ b4 ∧ b4 < 192 then
                  Char.ofNat
                      ((b - 240) * 262144 + (b2 - 128) * 4096 + (b3 - 128) * 64
                        + (b4 - 128))
                    :: utf8DecodeList rest4
                else replChar :: utf8DecodeList (b4 :: rest4)
            else replChar :: utf8DecodeList (b3 :: rest3)
        else replChar :: utf8DecodeList (b2 :: rest2)
    else replChar :: utf8DecodeList rest

/-- Model of `new TextDecoder().decode`. -/
def utf8Decode (bytes : List Nat) : String := String.mk (utf8DecodeList bytes)

/-! ## JSON

`JSON.parse` / `JSON.stringify` as used by the verifier (license.ts line
112) and the issuer (generate-license.ts line 120). Values are modelled
structurally; a number keeps its literal (floating-point value semantics
are not needed by the license code, only truthiness and string coercion).
JavaScript objects keep the last of duplicate keys, so field lookup scans
from the end. -/

mutual

/-- A parsed JSON value (arrays and objects carry their own list types so
that recursion over values stays structural). -/
inductive JValue where
  | jnull
  | jbool (b : Bool)
  | jnum (lit : String)
  | jstr (s : String)
  | jarr (elems : JList)
  | jobj (fields : JFields)

/-- A list of JSON values. -/
inductive JList where
  | nil
  | cons (v : JValue) (tl : JList)

/-- A list of JSON object members. -/
inductive JFields where
  | nil
  | cons (k : String) (v : JValue) (tl : JFields)

end

/-- Convert a plain list of values to a `JList`. -/
def toJList : List JValue → JList
  | [] => .nil
  | v :: tl => .cons v (toJList tl)

/-- Convert a plain member list to `JFields`. -/
def toJFields : List (String × JValue) → JFields
  | [] => .nil
  | (k, v) :: tl => .cons k v (toJFields tl)

/-- Build an object value from a plain member list. -/
def jobjOf (l : List (String × JValue)) : JValue := .jobj (toJFields l)

/-- JSON whitespace. -/
def isJsonWs (c : Char) : Bool := c = ' ' ∨ c = '\t' ∨ c = '\n' ∨ c = '\r'

/-- Skip JSON whitespace. -/
def skipWs (cs : List Char) : List Char := cs.dropWhile isJsonWs

/-- Value of a hex digit. -/
def hexVal (c : Char) : Option Nat :=
  if 48 ≤ c.toNat ∧ c.toNat ≤ 57 then some (c.toNat - 48)
  else if 97 ≤ c.toNat ∧ c.toNat ≤ 102 then some (c.toNat - 87)
  else if 65 ≤ c.toNat ∧ c.toNat ≤ 70 then some (c.toNat - 55)
  else none

/-- Decimal digit test. -/
def isDig (c : Char) : Bool := 48 ≤ c.toNat ∧ c.toNat ≤ 57

/-- Parse the body of a JSON string literal after the opening quote (with a
step-count fuel; each step consumes at least one character); returns the
content and the input after the closing quote. UTF-16 surrogate-pair
escapes are combined; a lone surrogate escape (a valid JavaScript string
Lean cannot represent) is approximated by U+FFFD. -/
def parseJStringAux : Nat → List Char → Option (List Char × List Char)
  | 0, _ => none
  | _ + 1, [] => none
  | _ + 1, '"' :: rest => some ([], rest)
  | fuel + 1, '\\' :: rest =>
    match rest with
    | [] => none
    | e :: rest2 =>
      let simpleEsc : Option Char :=
        if e = '"' then some '"' else if e = '\\' then some '\\'
        else if e = '/' then some '/' else if e = 'b' then some '\x08'
        else if e = 'f' then some '\x0c' else if e = 'n' then some '\n'
        else if e = 'r' then some '\r' else if e = 't' then some '\t'
        else none
      match simpleEsc with
      | some c =>
          (match parseJStringAux fuel rest2 with
           | some (s, r) => some (c :: s, r)
           | none => none)
      | none =>
        if e = 'u' then
          match rest2 with
          | h1 :: h2 :: h3 :: h4 :: rest3 =>
            (match hexVal h1, hexVal h2, hexVal h3, hexVal h4 with
             | some v1, some v2, some v3, some v4 =>
               let n := v1 * 4096 + v2 * 256 + v3 * 16 + v4
               if 55296 ≤ n ∧ n < 56320 then
                 match rest3 with
                 | '\\' :: 'u' :: g1 :: g2 :: g3 :: g4 :: rest4 =>
                   (match hexVal g1, hexVal g2, hexVal g3, hexVal g4 with
                    | some w1, some w2, some w3, some w4 =>
                      let n2 := w1 * 4096 + w2 * 256 + w3 * 16 + w4
                      if 56320 ≤ n2 ∧ n2 < 57344 then
                        match parseJStringAux fuel rest4 with
                        | some (s, r) =>
                            some (Char.ofNat (65536 + (n - 55296) * 1024 + (n2 - 56320)) :: s, r)
                        | none => none
                      else
                        match parseJStringAux fuel rest3 with
                        | some (s, r) => some (replChar :: s, r)
                        | none => none
                    | _, _, _, _ => none)
                 | _ =>
                   match parseJStringAux fuel rest3 with
                   | some (s, r) => some (replChar :: s, r)
                   | none => none
               else if 56320 ≤ n ∧ n < 57344 then
                 match parseJStringAux fuel rest3 with
                 | some (s, r) => some (replChar :: s, r)
                 | none => none
               else
                 match parseJStringAux fuel rest3 with
                 | some (s, r) => some (Char.ofNat n :: s, r)
                 | none => none
             | _, _, _, _ => none)
          | _ => none
        else none
  | fuel + 1, c :: rest =>
    if c.toNat < 32 then none
    else
      match parseJStringAux fuel rest with
      | some (s, r) => some (c :: s, r)
      | none => none

/-- Parse a JSON number literal; returns the literal and the rest. -/
def parseJNumber (cs : List Char) : Option (List Char × List Char) :=
  let (sgn, cs1) := match cs with
    | '-' :: r => (['-'], r)
    | _ => (([] : List Char), cs)
  match cs1 with
  | c :: r =>
    if c = '0' ∨ ¬ isDig c then
      if c = '0' then
        let (ip, r1) := (['0'], r)
        let (fp, r2) := match r1 with
          | '.' :: r' =>
            let ds := r'.takeWhile isDig
            if ds = [] then (none, r1) else (some ('.' :: ds), r'.dropWhile isDig)
          | _ => (none, r1)
        match fp with
        | none =>
          match r1 with
          | '.' :: _ => none
          | _ =>
            let (ep, r3) := match r2 with
              | x :: r' =>
                if x = 'e' ∨ x = 'E' then
                  let (es, r'') := match r' with
                    | '+' :: q => (['+'], q)
                    | '-' :: q => (['-'], q)
                    | _ => (([] : List Char), r')
                  let ds := r''.takeWhile isDig
                  if ds = [] then (none, r2) else (some (x :: es ++ ds), r''.dropWhile isDig)
                else (none, r2)
              | _ => (none, r2)
            match ep, r2 with
            | none, 'e' :: _ => none
            | none, 'E' :: _ => none
            | _, _ => some (sgn ++ ip ++ ep.getD [], r3)
        | some f =>
          let (ep, r3) := match r2 with
            | x :: r' =>
              if x = 'e' ∨ x = 'E' then
                let (es, r'') := match r' with
                  | '+' :: q => (['+'], q)
                  | '-' :: q => (['-'], q)
                  | _ => (([] : List Char), r')
                let ds := r''.takeWhile isDig
                if ds = [] then (none, r2) else (some (x :: es ++ ds), r''.dropWhile isDig)
              else (none, r2)
            | _ => (none, r2)
          match ep, r2 with
          | none, 'e' :: _ => none
          | none, 'E' :: _ => none
          | _, _ => some (sgn ++ ip ++ f ++ ep.getD [], r3)
      else none
    else
      let ds := cs1.takeWhile isDig
      let r1 := cs1.dropWhile isDig
      let (fp, r2) := match r1 with
        | '.' :: r' =>
          let fs := r'.takeWhile isDig
          if fs = [] then (none, r1) else (some ('.' :: fs), r'.dropWhile isDig)
        | _ => (none, r1)
      match fp, r1 with
      | none, '.' :: _ => none
      | _, _ =>
        let (ep, r3) := match r2 with
          | x :: r' =>
            if x = 'e' ∨ x = 'E' then
              let (es, r'') := match r' with
                | '+' :: q => (['+'], q)
                | '-' :: q => (['-'], q)
                | _ => (([] : List Char), r')
              let es2 := r''.takeWhile isDig
              if es2 = [] then (none, r2) else (some (x :: es ++ es2), r''.dropWhile isDig)
            else (none, r2)
          | _ => (none, r2)
        match ep, r2 with
        | none, 'e' :: _ => none
        | none, 'E' :: _ => none
        | _, _ => some (sgn ++ ds ++ (fp.getD []) ++ ep.getD [], r3)
  | [] => none

/-- Bind on `Option`, written as an explicit match for transparent
reduction in proofs. -/
def bindOpt (x : Option α) (g : α → Option β) : Option β :=
  match x with
  | some a => g a
  | none => none

mutual

/-- Parse one JSON value (input already whitespace-skipped). -/
def parseJValue : Nat → List Char → Option (JValue × List Char)
  | 0, _ => none
  | _ + 1, [] => none
  | fuel + 1, c :: cs =>
    if c = 'n' then
      match c :: cs with
      | 'n' :: 'u' :: 'l' :: 'l' :: rest => some (.jnull, rest)
      | _ => none
    else if c = 't' then
      match c :: cs with
      | 't' :: 'r' :: 'u' :: 'e' :: rest => some (.jbool true, rest)
      | _ => none
    else if c = 'f' then
      match c :: cs with
      | 'f' :: 'a' :: 'l' :: 's' :: 'e' :: rest => some (.jbool false, rest)
      | _ => none
    else if c = '"' then
      bindOpt (parseJStringAux (cs.length + 1) cs) fun sr =>
        some (.jstr (String.mk sr.1), sr.2)
    else if c = '[' then
      match skipWs cs with
      | c2 :: r =>
        if c2 = ']' then some (.jarr .nil, r)
        else bindOpt (parseJValue fuel (c2 :: r)) fun vr =>
          parseArrTail fuel [vr.1] (skipWs vr.2)
      | [] => bindOpt (parseJValue fuel []) fun vr => parseArrTail fuel [vr.1] (skipWs vr.2)
    else if c = '{' then
      match skipWs cs with
      | c2 :: r =>
        if c2 = '}' then some (.jobj .nil, r)
        else bindOpt (parseMember fuel (c2 :: r)) fun kvr =>
          parseObjTail fuel [kvr.1] (skipWs kvr.2)
      | [] => bindOpt (parseMember fuel []) fun kvr => parseObjTail fuel [kvr.1] (skipWs kvr.2)
    else if c = '-' ∨ isDig c then
      bindOpt (parseJNumber (c :: cs)) fun lr => some (.jnum (String.mk lr.1), lr.2)
    else none

/-- Parse one `"key": value` member. -/
def parseMember : Nat → List Char → Option ((String × JValue) × List Char)
  | 0, _ => none
  | fuel + 1, cs =>
    match cs with
    | c :: r =>
        if c = '"' then
          bindOpt (parseJStringAux (r.length + 1) r) fun kr =>
            match skipWs kr.2 with
            | c2 :: r3 =>
              if c2 = ':' then
                bindOpt (parseJValue fuel (skipWs r3)) fun vr =>
                  some ((String.mk kr.1, vr.1), vr.2)
              else none
            | [] => none
        else none
    | [] => none

/-- Parse the continuation of an array after its first element. -/
def parseArrTail : Nat → List JValue → List Char → Option (JValue × List Char)
  | 0, _, _ => none
  | fuel + 1, acc, cs =>
    match cs with
    | c :: r =>
        if c = ']' then some (.jarr (toJList acc.reverse), r)
        else if c = ',' then
          bindOpt (parseJValue fuel (skipWs r)) fun vr =>
            parseArrTail fuel (vr.1 :: acc) (skipWs vr.2)
        else none
    | [] => none

/-- Parse the continuation of an object after its first member. -/
def parseObjTail : Nat → List (String × JValue) → List Char → Option (JValue × List Char)
  | 0, _, _ => none
  | fuel + 1, acc, cs =>
    match cs with
    | c :: r =>
        if c = '}' then some (.jobj (toJFields acc.reverse), r)
        else if c = ',' then
          bindOpt (parseMember fuel (skipWs r)) fun kvr =>
            parseObjTail fuel (kvr.1 :: acc) (skipWs kvr.2)
        else none
    | [] => none

end

/-- Model of `JSON.parse`; `none` models a thrown `SyntaxError`. -/
def jsonParse (s : String) : Option JValue :=
  let cs := skipWs s.data
  match parseJValue (cs.length + 1) cs with
  | some (v, rest) => if skipWs rest = [] then some v else none
  | none => none

/-- Last-binding field lookup: JavaScript object literals and `JSON.parse`
keep the last of duplicate keys. Property access on non-objects yields
`undefined` (or throws, for `null` — both collapse to rejection here). -/
def lookupLast (fields : JFields) (k : String) : Option JValue :=
  match fields with
  | .nil => none
  | .cons k' v rest =>
    match lookupLast rest k with
    | some r => some r
    | none => if k' = k then some v else none

/-- Model of `payload.k` property access. -/
def getField (v : JValue) (k : String) : Option JValue :=
  match v with
  | .jobj fields => lookupLast fields k
  | _ => none

/-- Whether all mantissa digits of a number literal are zero. -/
def jnumIsZero (lit : String) : Bool :=
  (lit.data.takeWhile (fun c => c ≠ 'e' ∧ c ≠ 'E')).all
    (fun c => ¬ isDig c ∨ c = '0')

/-- JavaScript truthiness of a parsed JSON value. -/
def jsTruthy : JValue → Bool
  | .jnull => false
  | .jbool b => b
  | .jnum lit => ¬ jnumIsZero lit
  | .jstr s => ¬ s.data.isEmpty
  | .jarr _ => true
  | .jobj _ => true

/-- String form of an integer number literal (string coercion); non-integer
literals are kept verbatim (an approximation the license code never
distinguishes). -/
def jsNumToString (lit : String) : String :=
  if lit.data.any (fun c => c = '.' ∨ c = 'e' ∨ c = 'E') then lit
  else if lit = "-0" then "0" else lit

mutual

/-- JavaScript string coercion of a JSON value (as in `payload.e + '...'`). -/
def jsToString : JValue → String
  | .jnull => "null"
  | .jbool true => "true"
  | .jbool false => "false"
  | .jstr s => s
  | .jnum lit => jsNumToString lit
  | .jarr l => jsArrJoin l
  | .jobj _ => "[object Object]"

/-- Array-to-string: elements joined with `,`, `null` elements empty. -/
def jsArrJoin : JList → String
  | .nil => ""
  | .cons .jnull .nil => ""
  | .cons v .nil => jsToString v
  | .cons .jnull rest => "," ++ jsArrJoin rest
  | .cons v rest => jsToString v ++ "," ++ jsArrJoin rest

end

/-! ## Calendar dates

The verifier evaluates `new Date(payload.e + 'T23:59:59Z')` (license.ts
line 153): the ECMA-262 date-time string format with a date part `YYYY`,
`YYYY-MM` or `YYYY-MM-DD` followed by the fixed time `23:59:59` UTC;
out-of-range components give an invalid date. The issuer computes the
expiry date with `setMonth(getMonth() + months)` (UTC clock model), which
rolls an overflowing day-of-month into the following month. -/

/-- Gregorian leap year. -/
def isLeapYear (y : Nat) : Bool := y % 4 = 0 ∧ (y % 100 ≠ 0 ∨ y % 400 = 0)

/-- Days in a month. -/
def daysInMonth (y m : Nat) : Nat :=
  if m = 1 ∨ m = 3 ∨ m = 5 ∨ m = 7 ∨ m = 8 ∨ m = 10 ∨ m = 12 then 31
  else if m = 2 then (if isLeapYear y then 29 else 28)
  else 30

/-- Absolute day count of a civil date (year shifted by +400 to stay in
`Nat`), counted from 0400-03-01 of the proleptic Gregorian calendar. -/
def civilAbs (y m d : Nat) : Nat :=
  let yy := if m ≤ 2 then y + 399 else y + 400
  let mp := if m ≤ 2 then m + 9 else m - 3
  365 * yy + yy / 4 - yy / 100 + yy / 400 + (153 * mp + 2) / 5 + (d - 1)

/-- Days since the Unix epoch of a civil date. -/
def epochDays (y m d : Nat) : Int := (civilAbs y m d : Int) - (civilAbs 1970 1 1 : Int)

/-- Decimal digit character. -/
def digitChar (n : Nat) : Char := Char.ofNat (48 + n % 10)

/-- Two zero-padded decimal digits. -/
def pad2 (n : Nat) : List Char := [digitChar (n / 10), digitChar n]

/-- Four zero-padded decimal digits. -/
def pad4 (n : Nat) : List Char :=
  [digitChar (n / 1000), digitChar (n / 100), digitChar (n / 10), digitChar n]

/-- `YYYY-MM-DD` rendering of a civil date (`toISOString().split('T')[0]`). -/
def formatCivil (y m d : Nat) : String :=
  String.mk (pad4 y ++ '-' :: (pad2 m ++ '-' :: pad2 d))

/-- Value of a decimal digit character. -/
def digitVal (c : Char) : Option Nat :=
  if isDig c then some (c.toNat - 48) else none

/-- Parse and range-check an ECMA date part (`YYYY[-MM[-DD]]`). -/
def parseDatePart (cs : List Char) : Option (Nat × Nat × Nat) :=
  match cs with
  | [y1, y2, y3, y4] =>
      bindOpt (digitVal y1) fun a => bindOpt (digitVal y2) fun b =>
      bindOpt (digitVal y3) fun c => bindOpt (digitVal y4) fun d =>
      some (a * 1000 + b * 100 + c * 10 + d, 1, 1)
  | [y1, y2, y3, y4, '-', m1, m2] =>
      bindOpt (digitVal y1) fun a => bindOpt (digitVal y2) fun b =>
      bindOpt (digitVal y3) fun c => bindOpt (digitVal y4) fun d =>
      bindOpt (digitVal m1) fun e => bindOpt (digitVal m2) fun f =>
      let y := a * 1000 + b * 100 + c * 10 + d
      let m := e * 10 + f
      if 1 ≤ m ∧ m ≤ 12 then some (y, m, 1) else none
  | [y1, y2, y3, y4, '-', m1, m2, '-', d1, d2] =>
      bindOpt (digitVal y1) fun a => bindOpt (digitVal y2) fun b =>
      bindOpt (digitVal y3) fun c => bindOpt (digitVal y4) fun d =>
      bindOpt (digitVal m1) fun e => bindOpt (digitVal m2) fun f =>
      bindOpt (digitVal d1) fun g => bindOpt (digitVal d2) fun h =>
      let y := a * 1000 + b * 100 + c * 10 + d
      let m := e * 10 + f
      let dd := g * 10 + h
      if 1 ≤ m ∧ m ≤ 12 ∧ 1 ≤ dd ∧ dd ≤ daysInMonth y m then some (y, m, dd)
      else none
  | _ => none

/-- Epoch milliseconds of `new Date(e + 'T23:59:59Z')`; `none` models an
invalid date (`NaN` time value). -/
def parseExpiryMs (e : String) : Option Int :=
  (parseDatePart e.data).map
    (fun ymd => epochDays ymd.1 ymd.2.1 ymd.2.2 * 86400000 + 86399000)

/-- The issuer's expiry date: `setMonth(getMonth() + months)`, day-of-month
overflow rolling into the following month (day-of-month is at most 31, so
the roll never crosses more than one month). -/
def addMonthsRoll (y m d months : Nat) : Nat × Nat × Nat :=
  let t := (m - 1) + months
  let y1 := y + t / 12
  let m1 := t % 12 + 1
  if d ≤ daysInMonth y1 m1 then (y1, m1, d)
  else if m1 = 12 then (y1 + 1, 1, d - daysInMonth y1 m1)
  else (y1, m1 + 1, d - daysInMonth y1 m1)

/-! ## The verifier: `src/license.ts` -/

/-- Model of `domainMatches` (license.ts lines 49–59). -/
def domainMatches (licenseDomain hostname : String) : Bool :=
  let ld := strLower licenseDomain
  let hn := strLower hostname
  if ld = hn then true
  else if ld = "localhost" ∧ (hn = "localhost" ∨ hn = "127.0.0.1") then true
  else if hn = "www." ++ ld then true
  else if ld = "www." ++ hn then true
  else false

/-- `licenseKey.startsWith('AW-')` (license.ts line 89). -/
def startsWithAW (s : String) : Bool := s.data.take 3 = ['A', 'W', '-']

/-- Split at the last `.` (license.ts lines 94–100: `lastIndexOf('.')`,
`slice(0, i)`, `slice(i + 1)`). -/
def splitLastDot (cs : List Char) : Option (List Char × List Char) :=
  if '.' ∈ cs then
    let after := (cs.reverse.takeWhile (fun c => c ≠ '.')).reverse
    some (cs.take (cs.length - after.length - 1), after)
  else none

/-- Key-format parsing (license.ts lines 89–104): the `AW-` prefix, the
split at the last dot, and the non-emptiness of both segments. Returns the
payload and signature segments. -/
def parseKey (licenseKey : String) : Option (String × String) :=
  if startsWithAW licenseKey then
    match splitLastDot (licenseKey.data.drop 3) with
    | none => none
    | some (p, s) =>
      if p = [] ∨ s = [] then none else some (String.mk p, String.mk s)
  else none

/-- Payload decoding (license.ts lines 107–115): base64url-decode, read the
bytes as UTF-8, `JSON.parse`. -/
def decodePayload (payloadB64 : String) : Option JValue :=
  match base64urlDecode payloadB64 with
  | none => none
  | some bytes => jsonParse (utf8Decode bytes)

/-- Truthiness of one payload field (`payload.k` in a boolean position). -/
def fieldTruthy (payload : JValue) (k : String) : Bool :=
  match getField payload k with
  | none => false
  | some v => jsTruthy v

/-- The required-field gate (license.ts line 118:
`!payload.d || !payload.e || !payload.t || !payload.i`). -/
def requiredFields (payload : JValue) : Bool :=
  fieldTruthy payload "d" ∧ fieldTruthy payload "e" ∧
    fieldTruthy payload "t" ∧ fieldTruthy payload "i"

/-- Domain and expiry policy after signature verification (license.ts lines
148–158). `payload.d` must be a string for `toLowerCase` to exist (anything
else throws, collapsing to `false`); `payload.e` is string-coerced by the
`+` concatenation, and the expiry instant must not be strictly before the
current time. -/
def domainExpiryCheck (payload : JValue) (hostname : String) (nowMs : Int) : Bool :=
  match getField payload "d" with
  | some (.jstr d) =>
    if domainMatches d hostname then
      let eStr := match getField payload "e" with
        | some v => jsToString v
        | none => "undefined"
      match parseExpiryMs eStr with
      | none => false
      | some expMs => decide (nowMs ≤ expMs)
    else false
  | _ => false

/-- Model of `validateLicense` (license.ts lines 72–162). The Web-Crypto
availability check is the `cryptoOk` flag; the ECDSA primitive is the
`verify` oracle, applied to the decoded signature bytes and the UTF-8
bytes of the still-encoded payload segment (line 134); every failure path
collapses to `false`. -/
def validateLicense (verify : List Nat → List Nat → Bool) (cryptoOk : Bool)
    (licenseKey hostname : String) (nowMs : Int) : Bool :=
  if cryptoOk then
    match parseKey licenseKey with
    | none => false
    | some (payloadB64, signatureB64) =>
      match decodePayload payloadB64 with
      | none => false
      | some payload =>
        if requiredFields payload then
          match base64urlDecode signatureB64 with
          | none => false
          | some signatureBytes =>
            if verify signatureBytes (utf8Encode payloadB64) then
              domainExpiryCheck payload hostname nowMs
            else false
        else false
  else false

/-- The byte sequence the verifier hands to signature verification (license
.ts line 134: `new TextEncoder().encode(payloadB64)`), as a function of the
presented key. -/
def verifierMessage (licenseKey : String) : Option (List Nat) :=
  (parseKey licenseKey).map (fun ps => utf8Encode ps.1)

/-! ## The issuer: `scripts/generate-license.ts` -/

/-- Lower-case hexadecimal digit. -/
def hexDigitChar (n : Nat) : Char :=
  if n < 10 then Char.ofNat (48 + n) else Char.ofNat (87 + n)

/-- `Buffer.toString('hex')`. -/
def bytesToHex (bytes : List Nat) : String :=
  String.mk (bytes.flatMap (fun b => [hexDigitChar (b / 16 % 16), hexDigitChar (b % 16)]))

/-- The license id `aw_` + 8 random bytes in hex (generate-license.ts line
110), with the random bytes a parameter. -/
def licenseIdOf (rand : List Nat) : String := "aw_" ++ bytesToHex rand

/-- One character of `JSON.stringify`'s string quoting. -/
def jsonEscapeChar (c : Char) : List Char :=
  if c = '"' then ['\\', '"']
  else if c = '\\' then ['\\', '\\']
  else if c = '\x08' then ['\\', 'b']
  else if c = '\x0c' then ['\\', 'f']
  else if c = '\n' then ['\\', 'n']
  else if c = '\r' then ['\\', 'r']
  else if c = '\t' then ['\\', 't']
  else if c.toNat < 32 then
    ['\\', 'u', '0', '0', hexDigitChar (c.toNat / 16), hexDigitChar (c.toNat % 16)]
  else [c]

/-- A `JSON.stringify`-quoted string literal. -/
def jsonQuote (s : String) : List Char :=
  '"' :: (s.data.flatMap jsonEscapeChar ++ ['"'])

/-- `JSON.stringify({d, e, t, i})` with string field values (generate-
license.ts lines 113–120); object-literal insertion order `d, e, t, i`. -/
def stringifyPayload (d e t i : String) : String :=
  String.mk ('{' :: '"' :: 'd' :: '"' :: ':' :: (jsonQuote d ++
    ',' :: '"' :: 'e' :: '"' :: ':' :: (jsonQuote e ++
    ',' :: '"' :: 't' :: '"' :: ':' :: (jsonQuote t ++
    ',' :: '"' :: 'i' :: '"' :: ':' :: (jsonQuote i ++ ['}'])))))

/-- Key assembly (generate-license.ts line 138). -/
def assembleKey (payloadB64 signatureB64 : String) : String :=
  "AW-" ++ payloadB64 ++ "." ++ signatureB64

/-- The byte sequence the issuer signs (generate-license.ts line 130:
`Buffer.from(payloadB64, 'utf-8')`). -/
def issuerMessage (payloadB64 : String) : List Nat := utf8Encode payloadB64

/-- The issuer's key generation (generate-license.ts lines 104–138), with
the signing primitive, the random id bytes and the current UTC civil date
as parameters: lowercase the domain, add `months` months to today for the
expiry date, serialize `{d,e,t,i}`, base64url-encode the UTF-8 payload,
sign the UTF-8 bytes of the encoded payload, assemble `AW-<p>.<s>`. -/
def issueKey (sign : List Nat → List Nat) (domain : String) (months : Nat)
    (tier : String) (rand : List Nat) (y m d : Nat) : String :=
  let ex := addMonthsRoll y m d months
  let eStr := formatCivil ex.1 ex.2.1 ex.2.2
  let payloadStr := stringifyPayload (strLower domain) eStr tier (licenseIdOf rand)
  let payloadB64 := base64urlEncode (utf8Encode payloadStr)
  let signatureB64 := base64urlEncode (sign (issuerMessage payloadB64))
  assembleKey payloadB64 signatureB64

/-- Outcome of the issuer's argument parsing: `--help` exit, an error exit
for a missing domain, an error exit for invalid months (both printed to
stderr with exit status 1, before any key is produced), or the parsed
arguments. `none` in a field models JavaScript `undefined`. -/
inductive ParseOutcome where
  | help
  | errDomain
  | errMonths
  | ok (domain : String) (months : Int) (tier : Option String)

/-- JavaScript whitespace trimmed by `parseInt`. -/
def isJsWs (c : Char) : Bool :=
  c = ' ' ∨ c = '\t' ∨ c = '\n' ∨ c = '\r' ∨ c = '\x0b' ∨ c = '\x0c'

/-- Numeric value of a digit string. -/
def digitsVal (ds : List Char) : Nat := ds.foldl (fun a c => a * 10 + (c.toNat - 48)) 0

/-- Model of `parseInt(s, 10)`: trim leading whitespace, optional sign,
longest digit prefix; `none` is `NaN`. -/
def jsParseIntDec (s : String) : Option Int :=
  let cs := s.data.dropWhile isJsWs
  let (neg, cs1) : Bool × List Char := match cs with
    | '-' :: r => (true, r)
    | '+' :: r => (false, r)
    | _ => (false, cs)
  let ds := cs1.takeWhile isDig
  if ds = [] then none
  else some (if neg then -(digitsVal ds : Int) else (digitsVal ds : Int))

/-- The final checks of `parseArgs` after the loop (generate-license.ts
lines 57–67). -/
def finishArgs (domain : Option String) (months : Option Int)
    (tier : Option String) : ParseOutcome :=
  match domain with
  | none => .errDomain
  | some d =>
    if d = "" then .errDomain
    else match months with
      | none => .errMonths
      | some n => if n < 1 then .errMonths else .ok d n tier

/-- The issuer's argument loop (generate-license.ts lines 25–55): each flag
consumes the following argument (possibly running off the end, leaving
`undefined`, upon which the loop exits); `--help` exits immediately;
unknown arguments are ignored; then the checks of lines 57–65. -/
def parseArgsLoop : List String → Option String → Option Int → Option String → ParseOutcome
  | [], domain, months, tier => finishArgs domain months tier
  | a :: rest, domain, months, tier =>
      if a = "--domain" ∨ a = "-d" then
        match rest with
        | [] => finishArgs none months tier
        | b :: rest2 => parseArgsLoop rest2 (some b) months tier
      else if a = "--months" ∨ a = "-m" then
        match rest with
        | [] => finishArgs domain none tier
        | b :: rest2 => parseArgsLoop rest2 domain (jsParseIntDec b) tier
      else if a = "--tier" ∨ a = "-t" then
        match rest with
        | [] => finishArgs domain months none
        | b :: rest2 => parseArgsLoop rest2 domain months (some b)
      else if a = "--help" ∨ a = "-h" then .help
      else parseArgsLoop rest domain months tier

/-- Model of `parseArgs` (generate-license.ts lines 19–68): defaults are
the empty domain (an error if never set), 12 months, tier `"pro"`. -/
def parseArgs (args : List String) : ParseOutcome :=
  parseArgsLoop args (some "") (some 12) (some "pro")

/-! ## Concrete fixtures used by the claim theorems

A 64-byte all-zero "signature", a fixed payload, and oracles that accept
exactly the corresponding (signature bytes, message bytes) pair — the shape
an ECDSA verifier has for one issued key. -/

/-- A concrete 64-byte signature value. -/
def sampleSig : List Nat := List.replicate 64 0

/-- Its base64url encoding (86 characters, two padding `=` stripped). -/
def sampleSigB64 : String := base64urlEncode sampleSig

/-- A concrete serialized payload. -/
def samplePayloadStr : String := stringifyPayload "example.com" "2099-12-31" "pro" "aw_1"

/-- Its base64url encoding. -/
def samplePayloadB64 : String := base64urlEncode (utf8Encode samplePayloadStr)

/-- An oracle accepting exactly the sample signature over the sample
payload segment. -/
def sampleOracle : List Nat → List Nat → Bool :=
  fun sb mb => sb == sampleSig && mb == utf8Encode samplePayloadB64

/-- The assembled sample license key. -/
def sampleKey : String := assembleKey samplePayloadB64 sampleSigB64

/-- The sample signature segment with its last character changed from `A`
to `B` — a one-byte change that decodes to the same 64 bytes, because the
final base64 character contributes only its top two bits. -/
def tamperedSigB64 : String := String.mk (List.replicate 85 'A' ++ ['B'])

/-- A payload whose `t` and `i` fields are the number 1, not strings. -/
def typedPayloadStr : String :=
  "\x7b\"d\":\"example.com\",\"e\":\"2099-12-31\",\"t\":1,\"i\":1\x7d"

/-- Its base64url encoding. -/
def typedPayloadB64 : String := base64urlEncode (utf8Encode typedPayloadStr)

/-- An oracle accepting the sample signature over that payload segment. -/
def typedOracle : List Nat → List Nat → Bool :=
  fun sb mb => sb == sampleSig && mb == utf8Encode typedPayloadB64

/-- The assembled key with number-typed `t` and `i`. -/
def typedKey : String := assembleKey typedPayloadB64 sampleSigB64

/-- A payload with no `i` field. -/
def noIPayloadStr : String := "\x7b\"d\":\"x\",\"e\":\"2099-01-01\",\"t\":\"pro\"\x7d"

/-- Its base64url encoding. -/
def noIPayloadB64 : String := base64urlEncode (utf8Encode noIPayloadStr)

/-- A key whose payload lacks the `i` field. -/
def noIKey : String := assembleKey noIPayloadB64 "AAAA"

/-- A concrete signing oracle: every message signs to 64 bytes of 7. -/
def issuerSign : List Nat → List Nat := fun _ => List.replicate 64 7

/-- The matching verifying oracle. -/
def issuerVerify : List Nat → List Nat → Bool := fun sb _ => sb == List.replicate 64 7

/-- A payload segment whose bytes decode to text that is not JSON. -/
def badJsonB64 : String := base64urlEncode (utf8Encode "notjson")

/-- A key whose payload decodes to non-JSON text. -/
def badJsonKey : String := assembleKey badJsonB64 "AAAA"

/-- The sample signature re-encoded with the standard base64 `=` padding. -/
def stdSigB64 : String := String.mk (b64EncodeChunks sampleSig)

/-- The sample key with the standard-base64 signature segment. -/
def stdKey : String := assembleKey samplePayloadB64 stdSigB64

/-- The sample key with the one-character-changed signature segment. -/
def tamperedKey : String := assembleKey samplePayloadB64 tamperedSigB64

/-! ## Helper lemmas: case folding -/

theorem toNat_ofNat_valid (n : Nat) (h : n < 55296) : (Char.ofNat n).toNat = n := by
  have hv : Nat.isValidChar n := Or.inl h
  simp [Char.ofNat, hv, Char.ofNatAux, Char.toNat, UInt32.toNat, UInt32.ofNat']

theorem lowerChar_idem (c : Char) : lowerChar (lowerChar c) = lowerChar c := by
  unfold lowerChar
  by_cases h : 65 ≤ c.toNat ∧ c.toNat ≤ 90
  · have hlt : c.toNat + 32 < 55296 := by omega
    have hno : ¬ (65 ≤ c.toNat + 32 ∧ c.toNat + 32 ≤ 90) := by omega
    rw [if_pos h, if_neg]
    rw [toNat_ofNat_valid _ hlt]
    exact hno
  · simp [h]

theorem strLower_data (s : String) : (strLower s).data = s.data.map lowerChar := rfl

theorem strLower_idem (s : String) : strLower (strLower s) = strLower s := by
  unfold strLower
  simp only [List.map_map]
  congr 1
  exact List.map_congr_left (fun c _ => lowerChar_idem c)

theorem strLower_empty_iff (s : String) : strLower s = "" ↔ s = "" := by
  constructor
  · intro h
    have := congrArg String.data h
    simp only [strLower_data] at this
    cases hs : s.data with
    | nil => cases s; simp_all
    | cons a l => rw [hs] at this; simp at this
  · intro h; subst h; rfl

/-! ## Helper lemmas: base64 round trips -/

theorem b64Val_b64Char : ∀ n, n < 64 → b64ValOfChar (b64CharOfVal n) = some n := by decide

theorem b64CharOfVal_mem (n : Nat) : b64CharOfVal n ∈ b64Alphabet := by
  by_cases h : n < 64
  · exact (by decide : ∀ m, m < 64 → b64CharOfVal m ∈ b64Alphabet) n h
  · unfold b64CharOfVal
    rw [List.getD_eq_default]
    · decide
    · rw [(by decide : b64Alphabet.length = 64)]; omega

theorem alphabet_facts : ∀ c ∈ b64Alphabet,
    urlUnswap (urlSwap c) = c ∧ urlSwap c ≠ '=' ∧ urlSwap c ≠ '.' ∧
      ¬ isB64Ws (urlSwap c) ∧ c ≠ '=' := by decide

theorem b64EncBody_mem : ∀ (bytes : List Nat), ∀ c ∈ b64EncBody bytes, c ∈ b64Alphabet
  | [], c, h => by simp [b64EncBody] at h
  | [a], c, h => by
      simp [b64EncBody] at h
      rcases h with rfl | rfl <;> exact b64CharOfVal_mem _
  | [a, b], c, h => by
      simp [b64EncBody] at h
      rcases h with rfl | rfl | rfl <;> exact b64CharOfVal_mem _
  | a :: b :: d :: rest, c, h => by
      simp [b64EncBody] at h
      rcases h with rfl | rfl | rfl | rfl | h
      · exact b64CharOfVal_mem _
      · exact b64CharOfVal_mem _
      · exact b64CharOfVal_mem _
      · exact b64CharOfVal_mem _
      · exact b64EncBody_mem rest c h
theorem b64PadCount_add3 (n : Nat) : b64PadCount (n + 3) = b64PadCount n := by
  unfold b64PadCount
  simp only [Nat.add_mod_right]

theorem b64EncodeChunks_eq : ∀ bytes : List Nat,
    b64EncodeChunks bytes = b64EncBody bytes ++ List.replicate (b64PadCount bytes.length) '='
  | [] => rfl
  | [a] => rfl
  | [a, b] => rfl
  | a :: b :: d :: rest => by
      show _ ++ b64EncodeChunks rest = _
      rw [b64EncodeChunks_eq rest]
      simp only [b64EncBody, List.length_cons, List.append_assoc]
      rw [show rest.length + 1 + 1 + 1 = rest.length + 3 by omega, b64PadCount_add3]

theorem b64EncBody_length_mod : ∀ bytes : List Nat,
    (b64EncBody bytes).length % 4 =
      (if bytes.length % 3 = 0 then 0 else if bytes.length % 3 = 1 then 2 else 3)
  | [] => rfl
  | [a] => rfl
  | [a, b] => rfl
  | a :: b :: d :: rest => by
      have ih := b64EncBody_length_mod rest
      simp only [b64EncBody, List.length_cons, List.length_append]
      have h3 : (rest.length + 1 + 1 + 1) % 3 = rest.length % 3 := by omega
      simp only [h3]
      by_cases h0 : rest.length % 3 = 0 <;> by_cases h1 : rest.length % 3 = 1 <;>
        simp [h0, h1] at ih ⊢ <;> omega

theorem dropWhile_rep_eq (k : Nat) (l : List Char) :
    List.dropWhile (fun c => c = '=') (List.replicate k '=' ++ l) =
      List.dropWhile (fun c => c = '=') l := by
  induction k with
  | zero => simp
  | succ n ih => simp [List.replicate_succ, List.dropWhile_cons, ih]

theorem stripTrailingEq_append_rep (xs : List Char) (k : Nat) :
    stripTrailingEq (xs ++ List.replicate k '=') = stripTrailingEq xs := by
  unfold stripTrailingEq
  rw [List.reverse_append, List.reverse_replicate, dropWhile_rep_eq]

theorem stripTrailingEq_no_eq (xs : List Char) (h : ∀ c ∈ xs, c ≠ '=') :
    stripTrailingEq xs = xs := by
  unfold stripTrailingEq
  cases hrev : xs.reverse with
  | nil => simpa using congrArg List.reverse hrev
  | cons a l =>
      have ha : a ∈ xs := by
        rw [← List.mem_reverse, hrev]; exact List.mem_cons_self a l
      rw [List.dropWhile_cons]
      have : (decide (a = '=')) = false := by
        simp [h a ha]
      rw [this]
      simp only [Bool.false_eq_true, if_false]
      rw [← hrev, List.reverse_reverse]
theorem stripPad_no_eq (xs : List Char) (h : ∀ c ∈ xs, c ≠ '=') : stripPad xs = xs := by
  unfold stripPad
  cases hrev : xs.reverse with
  | nil => exact rfl
  | cons a l =>
      have ha : a ∈ xs := by rw [← List.mem_reverse, hrev]; exact List.mem_cons_self a l
      have hne := h a ha
      split
      · rename_i rest heq
        injection heq with h1 _
        exact absurd h1 hne
      · rename_i rest heq
        injection heq with h1 _
        exact absurd h1 hne
      · rfl

theorem stripPad_append_one (xs : List Char) (h : ∀ c ∈ xs, c ≠ '=') :
    stripPad (xs ++ ['=']) = xs := by
  unfold stripPad
  have hrev : (xs ++ ['=']).reverse = '=' :: xs.reverse := by simp
  rw [hrev]
  cases hxs : xs.reverse with
  | nil =>
      simpa using congrArg List.reverse hxs
  | cons a l =>
      have ha : a ∈ xs := by rw [← List.mem_reverse, hxs]; exact List.mem_cons_self a l
      have hne := h a ha
      split
      · rename_i rest heq
        injection heq with _ h2
        injection h2 with h21 _
        exact absurd h21 hne
      · rename_i rest heq
        injection heq with _ h2
        rw [← h2, ← hxs, List.reverse_reverse]
      · rename_i hno1 hno2
        exact (hno2 (a :: l) rfl).elim

theorem stripPad_append_two (xs : List Char) :
    stripPad (xs ++ ['=', '=']) = xs := by
  unfold stripPad
  have hrev : (xs ++ ['=', '=']).reverse = '=' :: '=' :: xs.reverse := by simp
  rw [hrev]
  simp [List.reverse_reverse]
theorem b64DecodeGroups_encBody : ∀ bytes : List Nat, (∀ b ∈ bytes, b < 256) →
    b64DecodeGroups (b64EncBody bytes) = some bytes
  | [], _ => rfl
  | [a], h => by
      have ha : a < 256 := h a (by simp)
      simp only [b64EncBody, b64DecodeGroups]
      rw [b64Val_b64Char (a / 4) (by omega), b64Val_b64Char ((a % 4) * 16) (by omega)]
      simp only [Option.some.injEq, List.cons.injEq, and_true]
      omega
  | [a, b], h => by
      have ha : a < 256 := h a (by simp)
      have hb : b < 256 := h b (by simp)
      simp only [b64EncBody, b64DecodeGroups]
      rw [b64Val_b64Char (a / 4) (by omega), b64Val_b64Char ((a % 4) * 16 + b / 16) (by omega),
        b64Val_b64Char ((b % 16) * 4) (by omega)]
      simp only [Option.some.injEq, List.cons.injEq, and_true]
      constructor <;> omega
  | a :: b :: d :: rest, h => by
      have ha : a < 256 := h a (by simp)
      have hb : b < 256 := h b (by simp)
      have hd : d < 256 := h d (by simp)
      have ih := b64DecodeGroups_encBody rest (fun x hx => h x (by simp [hx]))
      simp only [b64EncBody, List.cons_append, List.nil_append, b64DecodeGroups]
      rw [b64Val_b64Char (a / 4) (by omega), b64Val_b64Char ((a % 4) * 16 + b / 16) (by omega),
        b64Val_b64Char ((b % 16) * 4 + d / 64) (by omega), b64Val_b64Char (d % 64) (by omega)]
      rw [show ([] : List Char).append (b64EncBody rest) = b64EncBody rest from rfl, ih]
      simp only [Option.some.injEq, List.cons.injEq, and_true]
      refine ⟨by omega, by omega, by omega⟩
theorem base64urlEncode_data (bytes : List Nat) :
    (base64urlEncode bytes).data = (b64EncBody bytes).map urlSwap := by
  show stripTrailingEq ((b64EncodeChunks bytes).map urlSwap) = _
  rw [b64EncodeChunks_eq, List.map_append, List.map_replicate]
  rw [show urlSwap '=' = '=' from rfl]
  rw [stripTrailingEq_append_rep]
  apply stripTrailingEq_no_eq
  intro c hc
  rcases List.mem_map.1 hc with ⟨c0, hc0, rfl⟩
  exact (alphabet_facts c0 (b64EncBody_mem _ _ hc0)).2.1

theorem encBody_unswap_swap (bytes : List Nat) :
    ((b64EncBody bytes).map urlSwap).map urlUnswap = b64EncBody bytes := by
  rw [List.map_map]
  have : ∀ c ∈ b64EncBody bytes, (urlUnswap ∘ urlSwap) c = id c := by
    intro c hc
    exact (alphabet_facts c (b64EncBody_mem _ _ hc)).1
  rw [List.map_congr_left this, List.map_id]

theorem alphabet_no_ws : ∀ c ∈ b64Alphabet, ¬ isB64Ws c = true := by decide

theorem encBody_no_ws (bytes : List Nat) : ∀ c ∈ b64EncBody bytes, ¬ isB64Ws c = true :=
  fun c hc => alphabet_no_ws c (b64EncBody_mem _ _ hc)
theorem encBody_no_eq (bytes : List Nat) : ∀ c ∈ b64EncBody bytes, c ≠ '=' :=
  fun c hc => (alphabet_facts c (b64EncBody_mem _ _ hc)).2.2.2.2

theorem atobModel_body_pad (bytes : List Nat) (h : ∀ b ∈ bytes, b < 256) (k : Nat)
    (hk : k ≤ 2) (hmod : ((b64EncBody bytes).length + k) % 4 = 0)
    (hne1 : (b64EncBody bytes).length % 4 ≠ 1) :
    atobModel (String.mk (b64EncBody bytes ++ List.replicate k '=')) = some bytes := by
  unfold atobModel
  simp only []
  have hfil : (b64EncBody bytes ++ List.replicate k '=').filter (fun c => ¬ isB64Ws c) =
      b64EncBody bytes ++ List.replicate k '=' := by
    rw [List.filter_eq_self]
    intro a ha
    rcases List.mem_append.1 ha with ha | ha
    · simpa using encBody_no_ws bytes a ha
    · have : a = '=' := by
        have := List.eq_of_mem_replicate ha
        exact this
      subst this
      decide
  rw [hfil]
  rw [List.length_append, List.length_replicate, if_pos hmod]
  have hstrip : stripPad (b64EncBody bytes ++ List.replicate k '=') = b64EncBody bytes := by
    match k, hk with
    | 0, _ => simpa using stripPad_no_eq _ (encBody_no_eq bytes)
    | 1, _ => exact stripPad_append_one _ (encBody_no_eq bytes)
    | 2, _ => exact stripPad_append_two _
  rw [hstrip, if_neg hne1]
  exact b64DecodeGroups_encBody bytes h

theorem base64urlDecode_encode (bytes : List Nat) (h : ∀ b ∈ bytes, b < 256) :
    base64urlDecode (base64urlEncode bytes) = some bytes := by
  unfold base64urlDecode
  simp only [base64urlEncode_data, encBody_unswap_swap, List.length_map]
  have hlen := b64EncBody_length_mod bytes
  have h3 : bytes.length % 3 = 0 ∨ bytes.length % 3 = 1 ∨ bytes.length % 3 = 2 := by omega
  rcases h3 with h3 | h3 | h3
  · rw [h3] at hlen; norm_num at hlen
    rw [show (4 - (b64EncBody bytes).length % 4) % 4 = 0 by omega]
    exact atobModel_body_pad bytes h 0 (by omega) (by omega) (by omega)
  · rw [h3] at hlen; norm_num at hlen
    rw [show (4 - (b64EncBody bytes).length % 4) % 4 = 2 by omega]
    exact atobModel_body_pad bytes h 2 (by omega) (by omega) (by omega)
  · rw [h3] at hlen; norm_num at hlen
    rw [show (4 - (b64EncBody bytes).length % 4) % 4 = 1 by omega]
    exact atobModel_body_pad bytes h 1 (by omega) (by omega) (by omega)
theorem alphabet_unswap_id : ∀ c ∈ b64Alphabet, urlUnswap c = c := by decide

theorem base64urlDecode_std (bytes : List Nat) (h : ∀ b ∈ bytes, b < 256) :
    base64urlDecode (String.mk (b64EncodeChunks bytes)) = some bytes := by
  unfold base64urlDecode
  simp only [b64EncodeChunks_eq]
  have hmap : (b64EncBody bytes ++ List.replicate (b64PadCount bytes.length) '=').map urlUnswap
      = b64EncBody bytes ++ List.replicate (b64PadCount bytes.length) '=' := by
    rw [List.map_append, List.map_replicate]
    rw [show urlUnswap '=' = '=' from rfl]
    congr 1
    have : ∀ c ∈ b64EncBody bytes, urlUnswap c = id c :=
      fun c hc => alphabet_unswap_id c (b64EncBody_mem _ _ hc)
    rw [List.map_congr_left this, List.map_id]
  rw [hmap]
  have hlen := b64EncBody_length_mod bytes
  have h3 : bytes.length % 3 = 0 ∨ bytes.length % 3 = 1 ∨ bytes.length % 3 = 2 := by omega
  rcases h3 with h3 | h3 | h3
  · rw [h3] at hlen; norm_num at hlen
    have hpc : b64PadCount bytes.length = 0 := by simp [b64PadCount, h3]
    rw [hpc]
    simp only [List.replicate, List.append_nil, List.length_append, List.length_replicate]
    rw [show (4 - ((b64EncBody bytes).length) % 4) % 4 = 0 by omega]
    exact atobModel_body_pad bytes h 0 (by omega) (by omega) (by omega)
  · rw [h3] at hlen; norm_num at hlen
    have hpc : b64PadCount bytes.length = 2 := by simp [b64PadCount, h3]
    rw [hpc]
    simp only [List.length_append, List.length_replicate]
    rw [show (4 - ((b64EncBody bytes).length + 2) % 4) % 4 = 0 by omega]
    simp only [List.replicate, List.append_nil]
    exact atobModel_body_pad bytes h 2 (by omega) (by omega) (by omega)
  · rw [h3] at hlen; norm_num at hlen
    have hpc : b64PadCount bytes.length = 1 := by simp [b64PadCount, h3]
    rw [hpc]
    simp only [List.length_append, List.length_replicate]
    rw [show (4 - ((b64EncBody bytes).length + 1) % 4) % 4 = 0 by omega]
    simp only [List.replicate, List.append_nil]
    exact atobModel_body_pad bytes h 1 (by omega) (by omega) (by omega)

/-! ## Helper lemmas: UTF-8 round trip -/

theorem char_valid_nat (c : Char) :
    c.toNat < 55296 ∨ (57344 ≤ c.toNat ∧ c.toNat < 1114112) := by
  have h := c.valid
  unfold UInt32.isValidChar Nat.isValidChar at h
  rcases h with h | ⟨h1, h2⟩
  · left
    exact h
  · right
    exact ⟨h1, h2⟩
theorem utf8DecodeList_encodeChar (c : Char) (rest : List Nat) :
    utf8DecodeList (utf8EncodeChar c ++ rest) = c :: utf8DecodeList rest := by
  have hval := char_valid_nat c
  unfold utf8EncodeChar
  by_cases h1 : c.toNat < 128
  · rw [if_pos h1]
    show utf8DecodeList (c.toNat :: rest) = _
    conv_lhs => rw [utf8DecodeList.eq_def]
    simp only []
    rw [if_pos h1, Char.ofNat_toNat]
  · rw [if_neg h1]
    by_cases h2 : c.toNat < 2048
    · rw [if_pos h2]
      show utf8DecodeList ((192 + c.toNat / 64) :: (128 + c.toNat % 64) :: rest) = _
      conv_lhs => rw [utf8DecodeList.eq_def]
      simp only []
      rw [if_neg (by omega), if_neg (by omega), if_pos (by omega), if_pos (by omega)]
      rw [show (192 + c.toNat / 64 - 192) * 64 + (128 + c.toNat % 64 - 128) = c.toNat by omega,
        Char.ofNat_toNat]
    · rw [if_neg h2]
      by_cases h3 : c.toNat < 65536
      · rw [if_pos h3]
        show utf8DecodeList ((224 + c.toNat / 4096) :: (128 + c.toNat / 64 % 64) ::
          (128 + c.toNat % 64) :: rest) = _
        conv_lhs => rw [utf8DecodeList.eq_def]
        simp only []
        rw [if_neg (by omega), if_neg (by omega), if_neg (by omega), if_pos (by omega)]
        by_cases h224 : 224 + c.toNat / 4096 = 224
        · rw [show (if 224 + c.toNat / 4096 = 224 then (160 : Nat) else 128) = 160
              from if_pos h224,
            show (if 224 + c.toNat / 4096 = 237 then (160 : Nat) else 192) = 192
              from if_neg (by omega)]
          rw [if_pos (by omega), if_pos (by omega)]
          rw [show (224 + c.toNat / 4096 - 224) * 4096 + (128 + c.toNat / 64 % 64 - 128) * 64
                + (128 + c.toNat % 64 - 128) = c.toNat by omega, Char.ofNat_toNat]
        · rw [show (if 224 + c.toNat / 4096 = 224 then (160 : Nat) else 128) = 128
              from if_neg h224]
          by_cases h237 : 224 + c.toNat / 4096 = 237
          · rw [show (if 224 + c.toNat / 4096 = 237 then (160 : Nat) else 192) = 160
                from if_pos h237]
            rw [if_pos (by omega), if_pos (by omega)]
            rw [show (224 + c.toNat / 4096 - 224) * 4096 + (128 + c.toNat / 64 % 64 - 128) * 64
                + (128 + c.toNat % 64 - 128) = c.toNat by omega, Char.ofNat_toNat]
          · rw [show (if 224 + c.toNat / 4096 = 237 then (160 : Nat) else 192) = 192
                from if_neg h237]
            rw [if_pos (by omega), if_pos (by omega)]
            rw [show (224 + c.toNat / 4096 - 224) * 4096 + (128 + c.toNat / 64 % 64 - 128) * 64
                + (128 + c.toNat % 64 - 128) = c.toNat by omega, Char.ofNat_toNat]
      · rw [if_neg h3]
        have h4 : c.toNat < 1114112 := by omega
        show utf8DecodeList ((240 + c.toNat / 262144) :: (128 + c.toNat / 4096 % 64) ::
          (128 + c.toNat / 64 % 64) :: (128 + c.toNat % 64) :: rest) = _
        conv_lhs => rw [utf8DecodeList.eq_def]
        simp only []
        rw [if_neg (by omega), if_neg (by omega), if_neg (by omega), if_neg (by omega),
          if_pos (by omega)]
        by_cases h240 : 240 + c.toNat / 262144 = 240
        · rw [show (if 240 + c.toNat / 262144 = 240 then (144 : Nat) else 128) = 144
              from if_pos h240,
            show (if 240 + c.toNat / 262144 = 244 then (144 : Nat) else 192) = 192
              from if_neg (by omega)]
          rw [if_pos (by omega), if_pos (by omega), if_pos (by omega)]
          rw [show (240 + c.toNat / 262144 - 240) * 262144 + (128 + c.toNat / 4096 % 64 - 128)
                * 4096 + (128 + c.toNat / 64 % 64 - 128) * 64 + (128 + c.toNat % 64 - 128)
                = c.toNat by omega, Char.ofNat_toNat]
        · rw [show (if 240 + c.toNat / 262144 = 240 then (144 : Nat) else 128) = 128
              from if_neg h240]
          by_cases h244 : 240 + c.toNat / 262144 = 244
          · rw [show (if 240 + c.toNat / 262144 = 244 then (144 : Nat) else 192) = 144
                from if_pos h244]
            rw [if_pos (by omega), if_pos (by omega), if_pos (by omega)]
            rw [show (240 + c.toNat / 262144 - 240) * 262144 + (128 + c.toNat / 4096 % 64 - 128)
                * 4096 + (128 + c.toNat / 64 % 64 - 128) * 64 + (128 + c.toNat % 64 - 128)
                = c.toNat by omega, Char.ofNat_toNat]
          · rw [show (if 240 + c.toNat / 262144 = 244 then (144 : Nat) else 192) = 192
                from if_neg h244]
            rw [if_pos (by omega), if_pos (by omega), if_pos (by omega)]
            rw [show (240 + c.toNat / 262144 - 240) * 262144 + (128 + c.toNat / 4096 % 64 - 128)
                * 4096 + (128 + c.toNat / 64 % 64 - 128) * 64 + (128 + c.toNat % 64 - 128)
                = c.toNat by omega, Char.ofNat_toNat]

theorem stringMk_data (s : String) : String.mk s.data = s := by cases s; rfl

theorem utf8DecodeList_encode (l : List Char) :
    utf8DecodeList (l.flatMap utf8EncodeChar) = l := by
  induction l with
  | nil => rfl
  | cons c cs ih => rw [List.flatMap_cons, utf8DecodeList_encodeChar, ih]

theorem utf8Decode_encode (s : String) : utf8Decode (utf8Encode s) = s := by
  unfold utf8Decode utf8Encode
  rw [utf8DecodeList_encode, stringMk_data]

theorem utf8Encode_inj {a b : String} (h : utf8Encode a = utf8Encode b) : a = b := by
  have := congrArg utf8Decode h
  rwa [utf8Decode_encode, utf8Decode_encode] at this

theorem utf8EncodeChar_lt_256 (c : Char) : ∀ b ∈ utf8EncodeChar c, b < 256 := by
  have hval := char_valid_nat c
  unfold utf8EncodeChar
  by_cases h1 : c.toNat < 128
  · rw [if_pos h1]; intro b hb; simp at hb; omega
  · rw [if_neg h1]
    by_cases h2 : c.toNat < 2048
    · rw [if_pos h2]; intro b hb; simp at hb; rcases hb with rfl | rfl <;> omega
    · rw [if_neg h2]
      by_cases h3 : c.toNat < 65536
      · rw [if_pos h3]; intro b hb; simp at hb; rcases hb with rfl | rfl | rfl <;> omega
      · rw [if_neg h3]; intro b hb; simp at hb; rcases hb with rfl | rfl | rfl | rfl <;> omega

theorem utf8Encode_lt_256 (s : String) : ∀ b ∈ utf8Encode s, b < 256 := by
  intro b hb
  unfold utf8Encode at hb
  rcases List.mem_flatMap.1 hb with ⟨c, _, hbc⟩
  exact utf8EncodeChar_lt_256 c b hbc

/-! ## Helper lemmas: JSON stringify/parse round trip -/

theorem hexVal_hexDigit : ∀ n, n < 16 → hexVal (hexDigitChar n) = some n := by decide

theorem bindOpt_some (a : α) (g : α → Option β) : bindOpt (some a) g = g a := rfl

theorem parseJStringAux_escape : ∀ (xs rest : List Char) (fuel : Nat),
    xs.length < fuel →
    parseJStringAux fuel (xs.flatMap jsonEscapeChar ++ '"' :: rest) = some (xs, rest) := by
  intro xs
  induction xs with
  | nil =>
      intro rest fuel hf
      cases fuel with
      | zero => omega
      | succ fu => simp [parseJStringAux]
  | cons c cs ih =>
      intro rest fuel hf
      cases fuel with
      | zero => omega
      | succ fu =>
        have hfu : cs.length < fu := by simp at hf; omega
        rw [List.flatMap_cons, List.append_assoc]
        by_cases hq : c = '"'
        · subst hq
          rw [show jsonEscapeChar '"' = ['\\', '"'] from rfl]
          simp only [parseJStringAux, List.append_eq, List.cons_append, List.nil_append]
          rw [ih rest fu hfu]
          rfl
        · by_cases hbs : c = '\\'
          · subst hbs
            rw [show jsonEscapeChar '\\' = ['\\', '\\'] from rfl]
            simp only [parseJStringAux, List.append_eq, List.cons_append, List.nil_append]
            rw [ih rest fu hfu]
            rfl
          · by_cases hb8 : c = '\x08'
            · subst hb8
              rw [show jsonEscapeChar '\x08' = ['\\', 'b'] from rfl]
              simp only [parseJStringAux, List.append_eq, List.cons_append, List.nil_append]
              rw [ih rest fu hfu]
              rfl
            · by_cases hcf : c = '\x0c'
              · subst hcf
                rw [show jsonEscapeChar '\x0c' = ['\\', 'f'] from rfl]
                simp only [parseJStringAux, List.append_eq, List.cons_append, List.nil_append]
                rw [ih rest fu hfu]
                rfl
              · by_cases hn : c = '\n'
                · subst hn
                  rw [show jsonEscapeChar '\n' = ['\\', 'n'] from rfl]
                  simp only [parseJStringAux, List.append_eq, List.cons_append, List.nil_append]
                  rw [ih rest fu hfu]
                  rfl
                · by_cases hr : c = '\r'
                  · subst hr
                    rw [show jsonEscapeChar '\r' = ['\\', 'r'] from rfl]
                    simp only [parseJStringAux, List.append_eq, List.cons_append, List.nil_append]
                    rw [ih rest fu hfu]
                    rfl
                  · by_cases ht : c = '\t'
                    · subst ht
                      rw [show jsonEscapeChar '\t' = ['\\', 't'] from rfl]
                      simp only [parseJStringAux, List.append_eq, List.cons_append, List.nil_append]
                      rw [ih rest fu hfu]
                      rfl
                    · by_cases hlt : c.toNat < 32
                      · have hesc : jsonEscapeChar c = ['\\', 'u', '0', '0',
                            hexDigitChar (c.toNat / 16), hexDigitChar (c.toNat % 16)] := by
                          simp [jsonEscapeChar, hq, hbs, hb8, hcf, hn, hr, ht, hlt]
                        rw [hesc]
                        simp only [parseJStringAux, List.append_eq, List.cons_append,
                          List.nil_append]
                        rw [show hexVal '0' = some 0 from rfl,
                          hexVal_hexDigit (c.toNat / 16) (by omega),
                          hexVal_hexDigit (c.toNat % 16) (by omega)]
                        simp +decide only []
                        rw [show (0 : Nat) * 4096 + 0 * 256 + c.toNat / 16 * 16 + c.toNat % 16
                            = c.toNat by omega]
                        simp only [show ¬(55296 ≤ c.toNat ∧ c.toNat < 56320) from by omega,
                          show ¬(56320 ≤ c.toNat ∧ c.toNat < 57344) from by omega, if_false]
                        rw [ih rest fu hfu]
                        rw [Char.ofNat_toNat]
                        rfl
                      · have hesc : jsonEscapeChar c = [c] := by
                          simp [jsonEscapeChar, hq, hbs, hb8, hcf, hn, hr, ht, hlt]
                        rw [hesc]
                        simp only [List.append_eq, List.cons_append, List.nil_append]
                        simp only [parseJStringAux, hq, hbs]
                        rw [if_neg hlt]
                        rw [ih rest fu hfu]
theorem jsonEscapeChar_length_ge (c : Char) : 1 ≤ (jsonEscapeChar c).length := by
  unfold jsonEscapeChar
  split_ifs <;> simp

theorem flatMap_escape_length_ge (l : List Char) :
    l.length ≤ (l.flatMap jsonEscapeChar).length := by
  induction l with
  | nil => simp
  | cons c cs ih =>
      rw [List.flatMap_cons, List.length_append, List.length_cons]
      have := jsonEscapeChar_length_ge c
      omega

theorem skipWs_nonws (c : Char) (l : List Char) (h : ¬ isJsonWs c = true) :
    skipWs (c :: l) = c :: l := by
  simp [skipWs, List.dropWhile_cons, h]

theorem parseJValue_strlit (s : String) (rest : List Char) (f : Nat) :
    parseJValue (f + 1) (jsonQuote s ++ rest) = some (.jstr s, rest) := by
  unfold jsonQuote
  simp only [List.cons_append, List.append_assoc, List.nil_append]
  simp +decide only [parseJValue, if_true, if_false]
  rw [parseJStringAux_escape s.data rest _ (by
    have h1 := flatMap_escape_length_ge s.data
    simp only [List.length_append, List.length_cons]
    omega)]
  exact congrArg (fun x => some (JValue.jstr x, rest)) (stringMk_data s)

theorem parseMember_field (k : Char) (v : String) (rest : List Char) (g : Nat)
    (hq : k ≠ '"') (hbs : k ≠ '\\') (hge : ¬ k.toNat < 32) :
    parseMember (g + 2) ('"' :: k :: '"' :: ':' :: (jsonQuote v ++ rest)) =
      some ((String.mk [k], .jstr v), rest) := by
  simp +decide only [parseMember, if_true, if_false]
  have h8 : k ≠ '\x08' := fun h => hge (h ▸ by decide)
  have hf2 : k ≠ '\x0c' := fun h => hge (h ▸ by decide)
  have hn2 : k ≠ '\n' := fun h => hge (h ▸ by decide)
  have hr2 : k ≠ '\r' := fun h => hge (h ▸ by decide)
  have ht2 : k ≠ '\t' := fun h => hge (h ▸ by decide)
  have hesc : [k].flatMap jsonEscapeChar = [k] := by
    simp [jsonEscapeChar, hq, hbs, hge, h8, hf2, hn2, hr2, ht2]
  have hstep := parseJStringAux_escape [k] (':' :: (jsonQuote v ++ rest))
    ((k :: '"' :: ':' :: (jsonQuote v ++ rest)).length + 1) (by simp)
  rw [hesc] at hstep
  simp only [List.cons_append, List.nil_append] at hstep
  rw [hstep, bindOpt_some]
  simp only []
  rw [skipWs_nonws ':' _ (by decide)]
  simp +decide only [if_true, if_false]
  have hsk : skipWs (jsonQuote v ++ rest) = jsonQuote v ++ rest := by
    unfold jsonQuote
    simp only [List.cons_append]
    exact skipWs_nonws '"' _ (by decide)
  rw [hsk, parseJValue_strlit v rest g, bindOpt_some]

theorem parseJValue_payload (d e t i : String) (f : Nat) :
    parseJValue (f + 6) (stringifyPayload d e t i).data =
      some (jobjOf [("d", .jstr d), ("e", .jstr e), ("t", .jstr t), ("i", .jstr i)], []) := by
  show parseJValue (f + 6) ('{' :: '"' :: 'd' :: '"' :: ':' :: (jsonQuote d ++
    ',' :: '"' :: 'e' :: '"' :: ':' :: (jsonQuote e ++
    ',' :: '"' :: 't' :: '"' :: ':' :: (jsonQuote t ++
    ',' :: '"' :: 'i' :: '"' :: ':' :: (jsonQuote i ++ ['}']))))) = _
  simp +decide only [parseJValue, if_true, if_false]
  rw [skipWs_nonws '"' _ (by decide)]
  simp +decide only [if_true, if_false]
  have m1 := parseMember_field 'd' d (',' :: '"' :: 'e' :: '"' :: ':' :: (jsonQuote e ++
    ',' :: '"' :: 't' :: '"' :: ':' :: (jsonQuote t ++
    ',' :: '"' :: 'i' :: '"' :: ':' :: (jsonQuote i ++ ['}'])))) (f + 3)
    (by decide) (by decide) (by decide)
  rw [show f + 3 + 2 = f + 5 by omega] at m1
  rw [m1, bindOpt_some]
  simp only []
  rw [skipWs_nonws ',' _ (by decide)]
  simp +decide only [parseObjTail, if_true, if_false]
  rw [skipWs_nonws '"' _ (by decide)]
  have m2 := parseMember_field 'e' e (',' :: '"' :: 't' :: '"' :: ':' :: (jsonQuote t ++
    ',' :: '"' :: 'i' :: '"' :: ':' :: (jsonQuote i ++ ['}']))) (f + 2)
    (by decide) (by decide) (by decide)
  rw [show f + 2 + 2 = f + 4 by omega] at m2
  rw [m2, bindOpt_some]
  simp only []
  rw [skipWs_nonws ',' _ (by decide)]
  simp +decide only [parseObjTail, if_true, if_false]
  rw [skipWs_nonws '"' _ (by decide)]
  have m3 := parseMember_field 't' t (',' :: '"' :: 'i' :: '"' :: ':' ::
    (jsonQuote i ++ ['}'])) (f + 1) (by decide) (by decide) (by decide)
  rw [show f + 1 + 2 = f + 3 by omega] at m3
  rw [m3, bindOpt_some]
  simp only []
  rw [skipWs_nonws ',' _ (by decide)]
  simp +decide only [parseObjTail, if_true, if_false]
  rw [skipWs_nonws '"' _ (by decide)]
  have m4 := parseMember_field 'i' i ['}'] f (by decide) (by decide) (by decide)
  rw [m4, bindOpt_some]
  simp only []
  rw [skipWs_nonws '}' _ (by decide)]
  simp +decide only [parseObjTail, if_true, if_false]
  rfl

/-! ## Helper lemmas: calendar dates -/

theorem digitChar_toNat (n : Nat) : (digitChar n).toNat = 48 + n % 10 := by
  unfold digitChar
  exact toNat_ofNat_valid _ (by omega)

theorem digitVal_digitChar (n : Nat) : digitVal (digitChar n) = some (n % 10) := by
  unfold digitVal isDig
  rw [digitChar_toNat]
  rw [if_pos (by simp; omega)]
  congr 1
  omega

theorem daysInMonth_ge_28 (y m : Nat) : 28 ≤ daysInMonth y m := by
  unfold daysInMonth
  split_ifs <;> omega

theorem daysInMonth_le_31 (y m : Nat) : daysInMonth y m ≤ 31 := by
  unfold daysInMonth
  split_ifs <;> omega

theorem parseDatePart_format (y m d : Nat) (hy : y ≤ 9999)
    (hm1 : 1 ≤ m) (hm2 : m ≤ 12) (hd1 : 1 ≤ d) (hd2 : d ≤ daysInMonth y m) :
    parseDatePart (formatCivil y m d).data = some (y, m, d) := by
  have hy' : y / 1000 % 10 * 1000 + y / 100 % 10 * 100 + y / 10 % 10 * 10 + y % 10 = y := by
    omega
  have hm' : m / 10 % 10 * 10 + m % 10 = m := by omega
  have hd' : d / 10 % 10 * 10 + d % 10 = d := by
    have := daysInMonth_le_31 y m
    omega
  show parseDatePart [digitChar (y / 1000), digitChar (y / 100), digitChar (y / 10), digitChar y,
    '-', digitChar (m / 10), digitChar m, '-', digitChar (d / 10), digitChar d] = _
  simp only [parseDatePart, digitVal_digitChar, bindOpt_some]
  rw [hy', hm', hd']
  rw [if_pos ⟨hm1, hm2, hd1, hd2⟩]
theorem parseExpiryMs_format (y m d : Nat) (hy : y ≤ 9999)
    (hm1 : 1 ≤ m) (hm2 : m ≤ 12) (hd1 : 1 ≤ d) (hd2 : d ≤ daysInMonth y m) :
    parseExpiryMs (formatCivil y m d) =
      some (epochDays y m d * 86400000 + 86399000) := by
  unfold parseExpiryMs
  rw [parseDatePart_format y m d hy hm1 hm2 hd1 hd2]
  rfl

theorem addMonthsRoll_valid (y m d months : Nat)
    (hm1 : 1 ≤ m) (hm2 : m ≤ 12) (hd1 : 1 ≤ d) (hd2 : d ≤ daysInMonth y m) :
    1 ≤ (addMonthsRoll y m d months).2.1 ∧ (addMonthsRoll y m d months).2.1 ≤ 12 ∧
    1 ≤ (addMonthsRoll y m d months).2.2 ∧
    (addMonthsRoll y m d months).2.2 ≤
      daysInMonth (addMonthsRoll y m d months).1 (addMonthsRoll y m d months).2.1 := by
  unfold addMonthsRoll
  simp only []
  set t := (m - 1) + months with ht
  set y1 := y + t / 12 with hy1
  set m1 := t % 12 + 1 with hm1'
  have hm1r : 1 ≤ m1 ∧ m1 ≤ 12 := by constructor <;> omega
  by_cases hle : d ≤ daysInMonth y1 m1
  · rw [if_pos hle]
    exact ⟨hm1r.1, hm1r.2, hd1, hle⟩
  · rw [if_neg hle]
    have h28a := daysInMonth_ge_28 y1 m1
    have h31 := daysInMonth_le_31 y m
    by_cases h12 : m1 = 12
    · rw [if_pos h12]
      have h28b := daysInMonth_ge_28 (y1 + 1) 1
      dsimp only
      refine ⟨by omega, by omega, by omega, by omega⟩
    · rw [if_neg h12]
      have h28c := daysInMonth_ge_28 y1 (m1 + 1)
      dsimp only
      refine ⟨by omega, by omega, by omega, by omega⟩

/-! ## Helper lemmas: key format and verifier structure -/

theorem str_eq_empty_iff (s : String) : s = "" ↔ s.data = [] := by
  constructor
  · intro h
    exact congrArg String.data h
  · intro h
    cases s
    simp only at h
    subst h
    rfl

theorem str_ne_empty_iff (s : String) : s ≠ "" ↔ s.data ≠ [] :=
  not_congr (str_eq_empty_iff s)

theorem takeWhile_no_dot (l l2 : List Char) (h : ∀ c ∈ l, c ≠ '.') :
    (l ++ '.' :: l2).takeWhile (fun c => c ≠ '.') = l := by
  induction l with
  | nil => simp [List.takeWhile_cons]
  | cons a r ih =>
      rw [List.cons_append, List.takeWhile_cons]
      have ha : a ≠ '.' := h a (List.mem_cons_self a r)
      simp only [decide_not, decide_eq_false ha, Bool.not_false, if_true]
      rw [show (fun c => !decide (c = '.')) = (fun c => decide (c ≠ '.')) from by
        funext c; simp [decide_not]]
      congr 1
      exact ih (fun c hc => h c (List.mem_cons_of_mem a hc))
theorem splitLastDot_append (p s : List Char) (hs : ∀ c ∈ s, c ≠ '.') :
    splitLastDot (p ++ '.' :: s) = some (p, s) := by
  unfold splitLastDot
  rw [if_pos (by simp)]
  have hrev : (p ++ '.' :: s).reverse = s.reverse ++ '.' :: p.reverse := by
    simp
  rw [hrev, takeWhile_no_dot s.reverse p.reverse
    (fun c hc => hs c (List.mem_reverse.mp hc))]
  simp only [List.reverse_reverse, Option.some.injEq, Prod.mk.injEq]
  constructor
  · rw [show (p ++ '.' :: s).length = p.length + s.length + 1 by simp; omega]
    rw [show p.length + s.length + 1 - s.length - 1 = p.length by omega]
    rw [List.take_left]
  · trivial
theorem parseKey_assemble (p s : String) (hp : p ≠ "") (hs : s ≠ "")
    (hdot : ∀ c ∈ s.data, c ≠ '.') :
    parseKey (assembleKey p s) = some (p, s) := by
  unfold parseKey assembleKey
  have hdata : ("AW-" ++ p ++ "." ++ s).data
      = 'A' :: 'W' :: '-' :: (p.data ++ '.' :: s.data) := by
    simp [String.data_append]
  have hsw : startsWithAW ("AW-" ++ p ++ "." ++ s) = true := by
    unfold startsWithAW
    rw [hdata]
    rfl
  rw [if_pos hsw, hdata]
  show (match splitLastDot (p.data ++ '.' :: s.data) with
    | none => none
    | some (p, s) => if p = [] ∨ s = [] then none
        else some (String.mk p, String.mk s)) = _
  rw [splitLastDot_append p.data s.data hdot]
  have hp' := (str_ne_empty_iff p).mp hp
  have hs' := (str_ne_empty_iff s).mp hs
  simp only []
  rw [if_neg (by simp [hp', hs'])]
theorem getField_payload (vd ve vt vi : JValue) :
    getField (jobjOf [("d", vd), ("e", ve), ("t", vt), ("i", vi)]) "d" = some vd ∧
    getField (jobjOf [("d", vd), ("e", ve), ("t", vt), ("i", vi)]) "e" = some ve ∧
    getField (jobjOf [("d", vd), ("e", ve), ("t", vt), ("i", vi)]) "t" = some vt ∧
    getField (jobjOf [("d", vd), ("e", ve), ("t", vt), ("i", vi)]) "i" = some vi := by
  refine ⟨rfl, rfl, rfl, rfl⟩

theorem requiredFields_payload (d e t i : String)
    (hd : d ≠ "") (he : e ≠ "") (ht : t ≠ "") (hi : i ≠ "") :
    requiredFields (jobjOf [("d", .jstr d), ("e", .jstr e), ("t", .jstr t), ("i", .jstr i)])
      = true := by
  have hd' := (str_ne_empty_iff d).mp hd
  have he' := (str_ne_empty_iff e).mp he
  have ht' := (str_ne_empty_iff t).mp ht
  have hi' := (str_ne_empty_iff i).mp hi
  unfold requiredFields fieldTruthy
  rw [(getField_payload _ _ _ _).1, (getField_payload _ _ _ _).2.1,
    (getField_payload _ _ _ _).2.2.1, (getField_payload _ _ _ _).2.2.2]
  unfold jsTruthy
  simp [List.isEmpty_iff, hd', he', ht', hi']

theorem domainExpiryCheck_payload (ld eStr tv iv : JValue) (dstr estr : String)
    (hld : ld = .jstr dstr) (hest : eStr = .jstr estr) (host : String) (now : Int) :
    domainExpiryCheck (jobjOf [("d", ld), ("e", eStr), ("t", tv), ("i", iv)]) host now =
      (if domainMatches dstr host then
        match parseExpiryMs estr with
        | none => false
        | some expMs => decide (now ≤ expMs)
      else false) := by
  subst hld hest
  unfold domainExpiryCheck
  rw [(getField_payload _ _ _ _).1, (getField_payload _ _ _ _).2.1]
  simp only []
  by_cases hm : domainMatches dstr host
  · rw [if_pos hm, if_pos hm]
    rw [show jsToString (JValue.jstr estr) = estr from rfl]
  · rw [if_neg hm, if_neg hm]
theorem validateLicense_true_iff (V : List Nat → List Nat → Bool) (ck : Bool)
    (key host : String) (tm : Int) :
    validateLicense V ck key host tm = true ↔
      (ck = true ∧ ∃ p s payload sb,
        parseKey key = some (p, s) ∧ decodePayload p = some payload ∧
        requiredFields payload = true ∧ base64urlDecode s = some sb ∧
        V sb (utf8Encode p) = true ∧ domainExpiryCheck payload host tm = true) := by
  unfold validateLicense
  cases ck with
  | false => simp
  | true =>
    simp only [if_true, true_and]
    cases hpk : parseKey key with
    | none => simp
    | some ps =>
      obtain ⟨p, s⟩ := ps
      simp only []
      cases hdp : decodePayload p with
      | none => simp [hdp]
      | some payload =>
        simp only []
        by_cases hrf : requiredFields payload
        · rw [if_pos hrf]
          cases hsd : base64urlDecode s with
          | none => simp [hrf, hsd]
          | some sb =>
            simp only []
            by_cases hv : V sb (utf8Encode p)
            · rw [if_pos hv]
              constructor
              · intro hde
                exact ⟨p, s, payload, sb, rfl, hdp, hrf, hsd, hv, hde⟩
              · rintro ⟨p', s', payload', sb', hps', hdp', hrf', hsd', hv', hde'⟩
                injection hps' with hps''
                obtain ⟨rfl, rfl⟩ := Prod.mk.injEq .. |>.mp hps''
                rw [hdp] at hdp'
                injection hdp' with h1
                subst h1
                exact hde'
            · rw [if_neg hv]
              simp only [Bool.false_eq_true, false_iff]
              rintro ⟨p', s', payload', sb', hps', hdp', hrf', hsd', hv', hde'⟩
              injection hps' with hps''
              obtain ⟨rfl, rfl⟩ := Prod.mk.injEq .. |>.mp hps''
              rw [hsd] at hsd'
              injection hsd' with h2
              subst h2
              exact hv (by exact hv')
        · rw [if_neg hrf]
          simp only [Bool.false_eq_true, false_iff]
          rintro ⟨p', s', payload', sb', hps', hdp', hrf', hsd', hv', hde'⟩
          injection hps' with hps''
          obtain ⟨rfl, rfl⟩ := Prod.mk.injEq .. |>.mp hps''
          rw [hdp] at hdp'
          injection hdp' with h1
          subst h1
          exact hrf hrf'

/-! ## Helper lemmas: issuer output shape -/

theorem b64EncBody_ne_nil : ∀ bytes : List Nat, bytes ≠ [] → b64EncBody bytes ≠ []
  | [], h => absurd rfl h
  | [_], _ => by simp [b64EncBody]
  | [_, _], _ => by simp [b64EncBody]
  | _ :: _ :: _ :: _, _ => by simp [b64EncBody]

theorem base64urlEncode_ne_empty (bytes : List Nat) (h : bytes ≠ []) :
    base64urlEncode bytes ≠ "" := by
  rw [str_ne_empty_iff, base64urlEncode_data]
  simp [b64EncBody_ne_nil bytes h]

theorem base64urlEncode_no_dot (bytes : List Nat) :
    ∀ c ∈ (base64urlEncode bytes).data, c ≠ '.' := by
  intro c hc
  rw [base64urlEncode_data] at hc
  rcases List.mem_map.1 hc with ⟨c0, hc0, rfl⟩
  exact (alphabet_facts c0 (b64EncBody_mem _ _ hc0)).2.2.1

theorem utf8Encode_ne_nil (s : String) (c0 : Char) (rest : List Char)
    (h : s.data = c0 :: rest) : utf8Encode s ≠ [] := by
  unfold utf8Encode
  rw [h, List.flatMap_cons]
  intro hcon
  have h1 : utf8EncodeChar c0 = [] := by
    cases he : utf8EncodeChar c0 with
    | nil => rfl
    | cons a l => rw [he] at hcon; simp at hcon
  unfold utf8EncodeChar at h1
  simp only [] at h1
  split_ifs at h1 <;> simp at h1

theorem formatCivil_ne_empty (y m d : Nat) : formatCivil y m d ≠ "" := by
  rw [str_ne_empty_iff]
  show (pad4 y ++ '-' :: (pad2 m ++ '-' :: pad2 d)) ≠ []
  simp [pad4]

theorem licenseIdOf_ne_empty (rand : List Nat) : licenseIdOf rand ≠ "" := by
  rw [str_ne_empty_iff]
  unfold licenseIdOf
  rw [String.data_append]
  simp [show ("aw_" : String).data = ['a', 'w', '_'] from rfl]

theorem domainMatches_refl (x : String) : domainMatches x x = true := by
  unfold domainMatches
  simp

theorem jsonParse_stringifyPayload (d e t i : String) :
    jsonParse (stringifyPayload d e t i) =
      some (jobjOf [("d", .jstr d), ("e", .jstr e), ("t", .jstr t), ("i", .jstr i)]) := by
  unfold jsonParse
  simp only []
  have hdata : (stringifyPayload d e t i).data = '{' :: ('"' :: 'd' :: '"' :: ':' ::
      (jsonQuote d ++ ',' :: '"' :: 'e' :: '"' :: ':' :: (jsonQuote e ++
       ',' :: '"' :: 't' :: '"' :: ':' :: (jsonQuote t ++
       ',' :: '"' :: 'i' :: '"' :: ':' :: (jsonQuote i ++ ['}']))))) := rfl
  rw [hdata, skipWs_nonws '{' _ (by decide)]
  have hp := parseJValue_payload d e t i
    (('"' :: 'd' :: '"' :: ':' :: (jsonQuote d ++ ',' :: '"' :: 'e' :: '"' :: ':' ::
      (jsonQuote e ++ ',' :: '"' :: 't' :: '"' :: ':' :: (jsonQuote t ++
      ',' :: '"' :: 'i' :: '"' :: ':' :: (jsonQuote i ++ ['}']))))).length - 4)
  rw [hdata] at hp
  rw [show ('{' :: ('"' :: 'd' :: '"' :: ':' :: (jsonQuote d ++ ',' :: '"' :: 'e' :: '"' :: ':' ::
      (jsonQuote e ++ ',' :: '"' :: 't' :: '"' :: ':' :: (jsonQuote t ++
      ',' :: '"' :: 'i' :: '"' :: ':' :: (jsonQuote i ++ ['}'])))))).length + 1
    = (('"' :: 'd' :: '"' :: ':' :: (jsonQuote d ++ ',' :: '"' :: 'e' :: '"' :: ':' ::
      (jsonQuote e ++ ',' :: '"' :: 't' :: '"' :: ':' :: (jsonQuote t ++
      ',' :: '"' :: 'i' :: '"' :: ':' :: (jsonQuote i ++ ['}']))))).length - 4) + 6 by
    simp only [List.length_cons, List.length_append]
    omega]
  rw [hp]
  rfl

/-! ## Helper lemmas: domain matching -/

theorem localhost_ne_www (x : String) : "localhost" ≠ "www." ++ x := by
  intro h
  have := congrArg String.data h
  rw [String.data_append] at this
  simp at this

theorem domainMatches_iff (d h : String) :
    domainMatches d h = true ↔
      (strLower d = strLower h ∨ strLower h = "www." ++ strLower d ∨
        strLower d = "www." ++ strLower h ∨
        (strLower d = "localhost" ∧ (strLower h = "localhost" ∨ strLower h = "127.0.0.1"))) := by
  unfold domainMatches
  simp only []
  split_ifs with h1 h2 h3 h4 <;> simp_all

/-! ## Claim C5: the localhost rule -/

/-- Claim C5, counterexample. The claim states that a license whose domain
is `localhost` matches only the hostnames `localhost` and `127.0.0.1`; the
code's generic `www.` rule also matches hostname `www.localhost`, which is
neither of the two (even case-insensitively). -/
theorem C5_counterexample :
    domainMatches "localhost" "www.localhost" = true ∧
      strLower "www.localhost" ≠ "localhost" ∧
      strLower "www.localhost" ≠ "127.0.0.1" := by
  decide

/-- Claim C5, amended: `domainMatches("localhost", h)` returns true iff `h`
lower-cased is `localhost`, `127.0.0.1`, or `www.localhost`. -/
theorem C5_localhost_amended (h : String) :
    domainMatches "localhost" h = true ↔
      (strLower h = "localhost" ∨ strLower h = "127.0.0.1" ∨
        strLower h = "www.localhost") := by
  have e1 : strLower "localhost" = "localhost" := by decide
  have e2 : ("www." ++ "localhost" : String) = "www.localhost" := by decide
  rw [domainMatches_iff, e1, e2]
  constructor
  · rintro (h1 | h1 | h1 | ⟨-, h1 | h1⟩)
    · exact Or.inl h1.symm
    · exact Or.inr (Or.inr h1)
    · exact absurd h1 (localhost_ne_www _)
    · exact Or.inl h1
    · exact Or.inr (Or.inl h1)
  · rintro (h1 | h1 | h1)
    · exact Or.inl h1.symm
    · exact Or.inr (Or.inr (Or.inr ⟨rfl, Or.inr h1⟩))
    · exact Or.inr (Or.inl h1)

/-! ## Claim C6: the domain policy table -/

/-- Claim C6: `domainMatches` is case-insensitive in both arguments and
returns true exactly for an exact (case-folded) match, a `www.`-prefixed
hostname, a `www.`-prefixed licensed domain, or the localhost rule; the
spec's concrete table checks out. -/
theorem C6_domain_policy :
    (∀ d h : String, domainMatches d h = true ↔
      (strLower d = strLower h ∨ strLower h = "www." ++ strLower d ∨
        strLower d = "www." ++ strLower h ∨
        (strLower d = "localhost" ∧ (strLower h = "localhost" ∨ strLower h = "127.0.0.1")))) ∧
    (∀ d h : String, domainMatches d h = domainMatches (strLower d) (strLower h)) ∧
    (domainMatches "example.com" "example.com" = true ∧
      domainMatches "example.com" "EXAMPLE.com" = true ∧
      domainMatches "example.com" "www.example.com" = true ∧
      domainMatches "example.com" "sub.example.com" = false ∧
      domainMatches "example.com" "example.org" = false ∧
      domainMatches "www.example.com" "example.com" = true ∧
      domainMatches "www.example.com" "www.example.com" = true) := by
  refine ⟨domainMatches_iff, ?_, by decide⟩
  intro d h
  unfold domainMatches
  simp only [strLower_idem]

/-! ## Claim C9: issuer argument validation -/

/-- Claim C9, counterexample. The claim states the issuer errors out
whenever the months argument is not a positive integer; but `parseInt`
takes the longest digit prefix, so `--months 3.7` is accepted and parsed
as 3 rather than rejected. -/
theorem C9_counterexample :
    parseArgs ["--domain", "example.com", "--months", "3.7"] =
      ParseOutcome.ok "example.com" 3 (some "pro") := by
  rfl

/-- Claim C9, amended: a missing or empty domain is an error exit; a months
argument whose `parseInt(·, 10)` value is `NaN` or below 1 is an error
exit; otherwise parsing succeeds with the `parseInt` value of the months
argument (its longest leading integer prefix) and defaults months = 12,
tier = "pro". -/
theorem C9_parse_args_amended :
    (∀ dm ms tr : String,
      parseArgs ["--domain", dm, "--months", ms, "--tier", tr] =
        (if dm = "" then ParseOutcome.errDomain
         else match jsParseIntDec ms with
           | none => ParseOutcome.errMonths
           | some n => if n < 1 then ParseOutcome.errMonths
               else ParseOutcome.ok dm n (some tr))) ∧
    (∀ dm : String, parseArgs ["--domain", dm] =
      (if dm = "" then ParseOutcome.errDomain
       else ParseOutcome.ok dm 12 (some "pro"))) ∧
    parseArgs [] = ParseOutcome.errDomain ∧
    parseArgs ["--months", "12"] = ParseOutcome.errDomain ∧
    parseArgs ["--domain"] = ParseOutcome.errDomain ∧
    (∀ dm : String, parseArgs ["--domain", dm, "--months", "0"] =
      (if dm = "" then ParseOutcome.errDomain else ParseOutcome.errMonths)) ∧
    (∀ dm : String, parseArgs ["--domain", dm, "--months", "abc"] =
      (if dm = "" then ParseOutcome.errDomain else ParseOutcome.errMonths)) := by
  refine ⟨?_, ?_, rfl, rfl, rfl, ?_, ?_⟩
  · intro dm ms tr
    by_cases hdm : dm = ""
    · subst hdm; rfl
    · simp only [parseArgs, parseArgsLoop, finishArgs]
      cases hms : jsParseIntDec ms with
      | none => simp [hdm, hms, finishArgs]
      | some n => by_cases hn : n < 1 <;> simp [hdm, hms, hn, finishArgs]
  · intro dm
    by_cases hdm : dm = ""
    · subst hdm; rfl
    · simp [parseArgs, parseArgsLoop, finishArgs, hdm]
  · intro dm
    by_cases hdm : dm = ""
    · subst hdm; rfl
    · have h0 : jsParseIntDec "0" = some 0 := rfl
      simp [parseArgs, parseArgsLoop, finishArgs, hdm, h0]
  · intro dm
    by_cases hdm : dm = ""
    · subst hdm; rfl
    · have habc : jsParseIntDec "abc" = none := rfl
      simp [parseArgs, parseArgsLoop, finishArgs, hdm, habc]

set_option maxRecDepth 100000

/-! ## Helper lemmas: assembled keys and tampering -/

theorem parseKey_assemble_empty (s : String) (hs : ∀ c ∈ s.data, c ≠ '.') :
    parseKey (assembleKey "" s) = none := by
  unfold parseKey assembleKey
  have hdata : ("AW-" ++ "" ++ "." ++ s).data
      = 'A' :: 'W' :: '-' :: (([] : List Char) ++ '.' :: s.data) := by
    simp [String.data_append]
  have hsw : startsWithAW ("AW-" ++ "" ++ "." ++ s) = true := by
    unfold startsWithAW
    rw [hdata]
    rfl
  rw [if_pos hsw, hdata]
  show (match splitLastDot (([] : List Char) ++ '.' :: s.data) with
    | none => none
    | some (p, s) => if p = [] ∨ s = [] then none
        else some (String.mk p, String.mk s)) = none
  rw [splitLastDot_append [] s.data hs]
  simp

theorem parseKey_assemble_sig_empty (p : String) :
    parseKey (assembleKey p "") = none := by
  unfold parseKey assembleKey
  have hdata : ("AW-" ++ p ++ "." ++ "").data
      = 'A' :: 'W' :: '-' :: (p.data ++ '.' :: ([] : List Char)) := by
    simp [String.data_append]
  have hsw : startsWithAW ("AW-" ++ p ++ "." ++ "") = true := by
    unfold startsWithAW
    rw [hdata]
    rfl
  rw [if_pos hsw, hdata]
  show (match splitLastDot (p.data ++ '.' :: ([] : List Char)) with
    | none => none
    | some (q, s) => if q = [] ∨ s = [] then none
        else some (String.mk q, String.mk s)) = none
  rw [splitLastDot_append p.data [] (by intro c hc; cases hc)]
  simp

theorem samplePayloadB64_ne_empty : samplePayloadB64 ≠ "" := by decide

theorem sampleSigB64_ne_empty : sampleSigB64 ≠ "" := by decide

theorem sampleSigB64_no_dot : ∀ c ∈ sampleSigB64.data, c ≠ '.' := by decide

theorem validateLicense_assembled
    (V : List Nat → List Nat → Bool) (sigBytes : List Nat)
    (dstr estr tstr istr host : String) (now : Int)
    (hd : dstr ≠ "") (he : estr ≠ "") (ht : tstr ≠ "") (hi : istr ≠ "")
    (hsgn : sigBytes ≠ []) (hsgb : ∀ b ∈ sigBytes, b < 256)
    (hV : V sigBytes (utf8Encode (base64urlEncode (utf8Encode
        (stringifyPayload dstr estr tstr istr)))) = true)
    (hde : domainExpiryCheck (jobjOf [("d", .jstr dstr), ("e", .jstr estr),
        ("t", .jstr tstr), ("i", .jstr istr)]) host now = true) :
    validateLicense V true
      (assembleKey (base64urlEncode (utf8Encode (stringifyPayload dstr estr tstr istr)))
        (base64urlEncode sigBytes)) host now = true := by
  have hpk := parseKey_assemble
    (base64urlEncode (utf8Encode (stringifyPayload dstr estr tstr istr)))
    (base64urlEncode sigBytes)
    (base64urlEncode_ne_empty _ (utf8Encode_ne_nil _ '\x7b' _ rfl))
    (base64urlEncode_ne_empty _ hsgn) (base64urlEncode_no_dot _)
  have hdp : decodePayload (base64urlEncode (utf8Encode (stringifyPayload dstr estr tstr istr)))
      = some (jobjOf [("d", .jstr dstr), ("e", .jstr estr),
          ("t", .jstr tstr), ("i", .jstr istr)]) := by
    unfold decodePayload
    rw [base64urlDecode_encode _ (utf8Encode_lt_256 _)]
    show jsonParse (utf8Decode (utf8Encode (stringifyPayload dstr estr tstr istr))) = _
    rw [utf8Decode_encode]
    exact jsonParse_stringifyPayload _ _ _ _
  have hrf := requiredFields_payload dstr estr tstr istr hd he ht hi
  have hsd := base64urlDecode_encode sigBytes hsgb
  rw [validateLicense_true_iff]
  exact ⟨rfl, _, _, _, _, hpk, hdp, hrf, hsd, hV, hde⟩

/-! ## Claim C1: the issue/verify round trip -/

/-- Claim C1, counterexample. The claim quantifies over any tier string,
but the verifier rejects a key whose `t` field is falsy: with a matched
sign/verify pair and a fresh expiry, the key issued for tier `"pro"`
verifies while the key issued for tier `""` — a claimed valid input — is
rejected. -/
theorem C1_counterexample :
    validateLicense issuerVerify true
      (issueKey issuerSign "Example.com" 12 "pro" [1] 2025 1 15) "example.com" 0 = true ∧
    validateLicense issuerVerify true
      (issueKey issuerSign "Example.com" 12 "" [1] 2025 1 15) "example.com" 0 = false :=
  ⟨rfl, rfl⟩

/-- Claim C1, amended: the round trip holds for every non-empty domain,
every month count, every non-empty tier, any id bytes and valid issuing
date with expiry year at most 9999, against any sound signing pair whose
signatures are non-empty byte lists, at every time up to the end of the
expiry day UTC. -/
theorem C1_roundtrip_amended
    (sign : List Nat → List Nat) (V : List Nat → List Nat → Bool)
    (domain tier : String) (months : Nat) (rand : List Nat)
    (y m d : Nat) (now : Int)
    (hdom : domain ≠ "") (htier : tier ≠ "")
    (hsgn : ∀ msg, sign msg ≠ [])
    (hsgb : ∀ msg, ∀ b ∈ sign msg, b < 256)
    (hV : ∀ msg, V (sign msg) msg = true)
    (hm1 : 1 ≤ m) (hm2 : m ≤ 12) (hd1 : 1 ≤ d) (hd2 : d ≤ daysInMonth y m)
    (hy : (addMonthsRoll y m d months).1 ≤ 9999)
    (hnow : now ≤ epochDays (addMonthsRoll y m d months).1
        (addMonthsRoll y m d months).2.1 (addMonthsRoll y m d months).2.2 * 86400000
        + 86399000) :
    validateLicense V true (issueKey sign domain months tier rand y m d)
      (strLower domain) now = true := by
  obtain ⟨hrm1, hrm2, hrd1, hrd2⟩ := addMonthsRoll_valid y m d months hm1 hm2 hd1 hd2
  rcases hx : addMonthsRoll y m d months with ⟨ey, em, ed⟩
  rw [hx] at hrm1 hrm2 hrd1 hrd2 hy hnow
  dsimp only at hrm1 hrm2 hrd1 hrd2 hy hnow
  have hkey : issueKey sign domain months tier rand y m d
      = assembleKey
          (base64urlEncode (utf8Encode (stringifyPayload (strLower domain)
            (formatCivil ey em ed) tier (licenseIdOf rand))))
          (base64urlEncode (sign (utf8Encode (base64urlEncode (utf8Encode
            (stringifyPayload (strLower domain) (formatCivil ey em ed) tier
              (licenseIdOf rand))))))) := by
    simp only [issueKey, issuerMessage, hx]
  rw [hkey]
  refine validateLicense_assembled V _ _ _ _ _ _ _
    ?_ (formatCivil_ne_empty ey em ed) htier (licenseIdOf_ne_empty rand)
    (hsgn _) (hsgb _) (hV _) ?_
  · intro h0
    exact hdom ((strLower_empty_iff domain).mp h0)
  · rw [domainExpiryCheck_payload _ _ _ _ (strLower domain) (formatCivil ey em ed) rfl rfl]
    rw [if_pos (domainMatches_refl (strLower domain))]
    rw [parseExpiryMs_format ey em ed hy hrm1 hrm2 hrd1 hrd2]
    exact decide_eq_true hnow

/-- Claim C1, witness for the amended round trip: a concrete instance with
domain `Example.com`, 12 months, tier `pro`, issued 2025-01-15, verified at
epoch time 0. -/
theorem C1_roundtrip_witness :
    validateLicense issuerVerify true
      (issueKey issuerSign "Example.com" 12 "pro" [1] 2025 1 15)
      (strLower "Example.com") 0 = true :=
  C1_roundtrip_amended issuerSign issuerVerify "Example.com" "pro" 12 [1] 2025 1 15 0
    (by decide) (by decide)
    (fun msg => by show List.replicate 64 7 ≠ []; decide)
    (fun msg => by show ∀ b ∈ List.replicate 64 7, b < 256; decide)
    (fun msg => rfl)
    (by decide) (by decide) (by decide) (by decide)
    (by decide) (by decide)

/-! ## Claim C2: tamper rejection -/

/-- Claim C2, counterexample. The claim says any single-byte change to the
signature segment of an accepted key is rejected; but the sample key's
signature segment is 86 `A`s, and changing the last character to `B` — a
single-byte change of the key string — leaves the decoded 64 signature
bytes unchanged (the final base64 character contributes only its top two
bits), so the tampered key is accepted too. -/
theorem C2_counterexample :
    sampleSigB64.data = List.replicate 85 'A' ++ ['A'] ∧
    tamperedSigB64.data = List.replicate 85 'A' ++ ['B'] ∧
    tamperedKey ≠ sampleKey ∧
    base64urlDecode tamperedSigB64 = base64urlDecode sampleSigB64 ∧
    validateLicense sampleOracle true sampleKey "example.com" 0 = true ∧
    validateLicense sampleOracle true tamperedKey "example.com" 0 = true := by
  refine ⟨by decide, rfl, by decide, by decide, rfl, rfl⟩

/-- Claim C2, amended: with an oracle accepting exactly the sample
signature bytes over the sample payload segment, any change to the payload
segment is rejected, and a change to the signature segment is rejected
whenever the changed segment no longer decodes to the accepted signature
bytes; the counterexample exhibits a byte change that preserves them. -/
theorem C2_tamper_amended :
    (∀ p : String, p ≠ samplePayloadB64 →
      validateLicense sampleOracle true (assembleKey p sampleSigB64) "example.com" 0
        = false) ∧
    (∀ s : String, (∀ c ∈ s.data, c ≠ '.') → base64urlDecode s ≠ some sampleSig →
      validateLicense sampleOracle true (assembleKey samplePayloadB64 s) "example.com" 0
        = false) := by
  constructor
  · intro p hne
    rw [Bool.eq_false_iff]
    intro htrue
    rw [validateLicense_true_iff] at htrue
    obtain ⟨-, q, s, payload, sb, hpk, hdp, hrf, hsd, hv, hde⟩ := htrue
    by_cases hp0 : p = ""
    · subst hp0
      rw [parseKey_assemble_empty sampleSigB64 sampleSigB64_no_dot] at hpk
      exact Option.noConfusion hpk
    · rw [parseKey_assemble p sampleSigB64 hp0 sampleSigB64_ne_empty
        sampleSigB64_no_dot] at hpk
      injection hpk with h1
      obtain ⟨rfl, rfl⟩ := Prod.mk.injEq .. |>.mp h1
      unfold sampleOracle at hv
      rw [Bool.and_eq_true] at hv
      have h2 : utf8Encode p = utf8Encode samplePayloadB64 := by
        have h3 := hv.2
        rwa [beq_iff_eq] at h3
      exact hne (utf8Encode_inj h2)
  · intro s hnd hdec
    rw [Bool.eq_false_iff]
    intro htrue
    rw [validateLicense_true_iff] at htrue
    obtain ⟨-, q, s2, payload, sb, hpk, hdp, hrf, hsd, hv, hde⟩ := htrue
    by_cases hs0 : s = ""
    · subst hs0
      rw [parseKey_assemble_sig_empty samplePayloadB64] at hpk
      exact Option.noConfusion hpk
    · rw [parseKey_assemble samplePayloadB64 s samplePayloadB64_ne_empty hs0 hnd] at hpk
      injection hpk with h1
      obtain ⟨rfl, rfl⟩ := Prod.mk.injEq .. |>.mp h1
      unfold sampleOracle at hv
      rw [Bool.and_eq_true] at hv
      have h2 : sb = sampleSig := by
        have h3 := hv.1
        rwa [beq_iff_eq] at h3
      subst h2
      exact hdec hsd

/-! ## Claim C3: totality at the boundary -/

/-- Claim C3: `validateLicense` is modelled as a total boolean function —
every internal failure collapses to `false` rather than an exception — and
each of the spec's probe inputs (empty string, missing `AW-` prefix,
prefixed string with no dot, payload decoding to non-JSON, payload JSON
missing the `i` field) returns `false` for every oracle, crypto
availability, hostname and time. -/
theorem C3_total_boundary :
    (∀ (V : List Nat → List Nat → Bool) (ck : Bool) (key host : String) (tm : Int),
      validateLicense V ck key host tm = false ∨ validateLicense V ck key host tm = true) ∧
    (∀ (V : List Nat → List Nat → Bool) (ck : Bool) (host : String) (tm : Int),
      validateLicense V ck "" host tm = false ∧
      validateLicense V ck "XW-abc.def" host tm = false ∧
      validateLicense V ck "AW-abcdef" host tm = false ∧
      validateLicense V ck badJsonKey host tm = false ∧
      validateLicense V ck noIKey host tm = false) := by
  constructor
  · intro V ck key host tm
    cases h : validateLicense V ck key host tm
    · exact Or.inl rfl
    · exact Or.inr rfl
  · intro V ck host tm
    cases ck
    · exact ⟨rfl, rfl, rfl, rfl, rfl⟩
    · exact ⟨rfl, rfl, rfl, rfl, rfl⟩

/-! ## Claim C4: the signed message -/

/-- Claim C4: the verifier's message bytes are the UTF-8 bytes of the
still-encoded payload segment of the presented key (never the decoded
JSON), the issuer signs exactly the UTF-8 bytes of the payload segment it
assembles, and on every well-formed assembled key the two derivations
agree byte for byte. -/
theorem C4_signed_message_agreement :
    (∀ (key p s : String), parseKey key = some (p, s) →
      verifierMessage key = some (utf8Encode p)) ∧
    (∀ p : String, issuerMessage p = utf8Encode p) ∧
    (∀ p s : String, p ≠ "" → s ≠ "" → (∀ c ∈ s.data, c ≠ '.') →
      verifierMessage (assembleKey p s) = some (issuerMessage p)) := by
  refine ⟨?_, fun p => rfl, ?_⟩
  · intro key p s h
    unfold verifierMessage
    rw [h]
    rfl
  · intro p s hp hs hdot
    unfold verifierMessage
    rw [parseKey_assemble p s hp hs hdot]
    rfl

/-! ## Claim C7: inclusive end-of-day expiry -/

/-- Claim C7: the expiry field is read as the end (23:59:59) of the named
UTC day and compared without tolerance — the check passes exactly while
the current time is at most that instant — and the sample key expiring
2099-12-31 is accepted at 23:59:58 and at 23:59:59 that day, and rejected
one millisecond later and on the next UTC day. -/
theorem C7_expiry_end_of_day :
    (∀ y m d : Nat, y ≤ 9999 → 1 ≤ m → m ≤ 12 → 1 ≤ d → d ≤ daysInMonth y m →
      parseExpiryMs (formatCivil y m d) = some (epochDays y m d * 86400000 + 86399000)) ∧
    (∀ (dstr estr : String) (tv iv : JValue) (host : String) (now : Int),
      domainExpiryCheck (jobjOf [("d", .jstr dstr), ("e", .jstr estr), ("t", tv), ("i", iv)])
          host now =
        (if domainMatches dstr host then
          match parseExpiryMs estr with
          | none => false
          | some expMs => decide (now ≤ expMs)
        else false)) ∧
    (parseExpiryMs "2099-12-31" = some 4102444799000 ∧
     validateLicense sampleOracle true sampleKey "example.com" 4102444798000 = true ∧
     validateLicense sampleOracle true sampleKey "example.com" 4102444799000 = true ∧
     validateLicense sampleOracle true sampleKey "example.com" 4102444799001 = false ∧
     validateLicense sampleOracle true sampleKey "example.com" 4102444801000 = false) := by
  refine ⟨fun y m d hy hm1 hm2 hd1 hd2 => parseExpiryMs_format y m d hy hm1 hm2 hd1 hd2,
    fun dstr estr tv iv host now =>
      domainExpiryCheck_payload (.jstr dstr) (.jstr estr) tv iv dstr estr rfl rfl host now,
    rfl, rfl, rfl, rfl, rfl⟩

/-! ## Claim C8: the required-field gate -/

/-- Claim C8, counterexample. The claim says the gate performs type/shape
validation so that no wrongly-typed payload is accepted; but the gate is
JavaScript truthiness only — a payload whose `t` and `i` fields are the
number 1 (not strings) passes it and the key verifies in full. -/
theorem C8_counterexample :
    decodePayload typedPayloadB64 =
      some (jobjOf [("d", .jstr "example.com"), ("e", .jstr "2099-12-31"),
        ("t", .jnum "1"), ("i", .jnum "1")]) ∧
    validateLicense typedOracle true typedKey "example.com" 0 = true :=
  ⟨rfl, rfl⟩

/-- Claim C8, amended: the gate `!d || !e || !t || !i` computes exactly the
conjunction of JavaScript truthiness of the four fields — a missing field
or an empty string is rejected, for any oracle and time, but any truthy
value of any JSON type passes; there is no type or shape validation. -/
theorem C8_required_fields_amended :
    (∀ vd ve vt vi : JValue,
      requiredFields (jobjOf [("d", vd), ("e", ve), ("t", vt), ("i", vi)]) =
        (jsTruthy vd && jsTruthy ve && jsTruthy vt && jsTruthy vi)) ∧
    (∀ payload : JValue, getField payload "i" = none → requiredFields payload = false) ∧
    (∀ d e t i : String, d ≠ "" → e ≠ "" → t ≠ "" → i ≠ "" →
      requiredFields (jobjOf [("d", .jstr d), ("e", .jstr e), ("t", .jstr t), ("i", .jstr i)])
        = true) ∧
    requiredFields (jobjOf [("d", .jstr "x"), ("e", .jstr "y"),
      ("t", .jstr ""), ("i", .jstr "z")]) = false ∧
    (∀ (V : List Nat → List Nat → Bool) (host : String) (tm : Int),
      validateLicense V true noIKey host tm = false) := by
  refine ⟨?_, ?_, requiredFields_payload, by decide, fun V host tm => rfl⟩
  · intro vd ve vt vi
    unfold requiredFields fieldTruthy
    rw [(getField_payload vd ve vt vi).1, (getField_payload vd ve vt vi).2.1,
        (getField_payload vd ve vt vi).2.2.1, (getField_payload vd ve vt vi).2.2.2]
    cases h1 : jsTruthy vd <;> cases h2 : jsTruthy ve <;>
      cases h3 : jsTruthy vt <;> cases h4 : jsTruthy vi <;> simp [h1, h2, h3, h4]
  · intro payload hnone
    unfold requiredFields fieldTruthy
    rw [hnone]
    simp

/-! ## Claim C10: decoder leniency -/

/-- Claim C10: `base64urlDecode` maps the url alphabet onto the standard
one and re-adds padding, so for every byte array the standard padded
encoding and the base64url encoding decode to the same bytes; hence the
sample accepted key stays accepted after its signature segment is
re-encoded with standard `=` padding, a distinct key string. -/
theorem C10_decoder_leniency :
    (∀ bytes : List Nat, (∀ b ∈ bytes, b < 256) →
      base64urlDecode (String.mk (b64EncodeChunks bytes)) = some bytes ∧
      base64urlDecode (base64urlEncode bytes) = some bytes) ∧
    (stdKey ≠ sampleKey ∧
     validateLicense sampleOracle true sampleKey "example.com" 100 = true ∧
     validateLicense sampleOracle true stdKey "example.com" 100 = true) := by
  refine ⟨fun bytes h => ⟨base64urlDecode_std bytes h, base64urlDecode_encode bytes h⟩,
    by decide, rfl, rfl⟩

end AkbyLicense
